import Mathlib

/-!
# HackRx question answering (`netlify/functions/hackrx.js`)

A shallow embedding of the question-answering core of the Netlify function:
`generateAnswer` (the ordered rule cascade), `findRelevantSentences` (the lexical
fallback ranker) and the per-question loop of `processHackRxRequest`.

Modelling conventions.

* A JavaScript string is the list of its UTF-16 code units (`JSStr`), so `.length`
  is `List.length` and `includes`, `split`, `trim` work on code units as in the engine.
* `String.prototype.toLowerCase` is a host built-in implementing the Unicode case
  mapping. It is taken as a parameter `lc` of every definition that calls it, so the
  general theorems hold for whatever mapping the engine implements. `asciiLower` is
  that mapping on ASCII strings and is used to evaluate ASCII inputs.
* The download and the PDF decoding are outside the embedding: the functions take the
  extracted `documentText`.
* A question is a value parsed from the JSON body (`JSValue`); calling `.toLowerCase()`
  on anything but a string raises a `TypeError`, modelled with `Except`. The log line of
  the `catch` branch converts the question to a string, which can throw as well.
* The handler reads the request through `Event`: the method, the outcome of
  `JSON.parse(event.body)` and the two spellings of the authorization header, each a
  string or undefined. The environment variable and the download are parameters.
-/

namespace HackRx

/-! ## Strings -/

/-- A JavaScript string: the sequence of its UTF-16 code units. -/
abbrev JSStr := List Nat

/-- Code units of a source literal (all literals of the program are ASCII). -/
def js (s : String) : JSStr := s.toList.map Char.toNat

/-- Lowercasing of a single code unit in the ASCII range (`A`-`Z` to `a`-`z`). -/
def asciiLowerUnit (c : Nat) : Nat := if 65 ≤ c ∧ c ≤ 90 then c + 32 else c

/-- The value of `toLowerCase` on ASCII strings. -/
def asciiLower (s : JSStr) : JSStr := s.map asciiLowerUnit

/-- Whether `k` occurs at the very start of `s`. -/
def startsWith : JSStr → JSStr → Bool
  | _, [] => true
  | [], _ :: _ => false
  | c :: s, d :: k => c == d && startsWith s k

/-- Model of `s.includes(k)`: `k` occurs in `s` as a contiguous run of code units. -/
def includes : JSStr → JSStr → Bool
  | [], k => startsWith [] k
  | c :: s, k => startsWith (c :: s) k || includes s k

/-- The code units matched by `\s` and stripped by `trim` (ECMAScript WhiteSpace and
LineTerminator). -/
def isWhiteSpace (c : Nat) : Bool :=
  c == 9 || c == 10 || c == 11 || c == 12 || c == 13 || c == 32 || c == 160 ||
  c == 5760 || (8192 ≤ c && c ≤ 8202) || c == 8232 || c == 8233 || c == 8239 ||
  c == 8287 || c == 12288 || c == 65279

/-- The class `[.!?]`. -/
def isSentenceEnd (c : Nat) : Bool := c == 46 || c == 33 || c == 63

/-- Model of `s.trim()`. -/
def trim (s : JSStr) : JSStr :=
  ((s.dropWhile isWhiteSpace).reverse.dropWhile isWhiteSpace).reverse

/-- Worker of `split`: `inSep` records that the previous code unit belonged to a separator
run (so the run is extended instead of opening a new piece), `cur` is the current piece
reversed. -/
def splitAux (sep : Nat → Bool) : Bool → List Nat → List Nat → List JSStr
  | _, cur, [] => [cur.reverse]
  | inSep, cur, c :: cs =>
    if sep c then
      if inSep then splitAux sep true [] cs else cur.reverse :: splitAux sep true [] cs
    else splitAux sep false (c :: cur) cs

/-- Model of `s.split(/[C]+/)` for a character class `C` given as `sep`: the pieces between
maximal runs of separator code units, empty first and last pieces included. -/
def split (sep : Nat → Bool) (s : JSStr) : List JSStr := splitAux sep false [] s

/-- Model of `xs.join(d)`. -/
def join (d : JSStr) : List JSStr → JSStr
  | [] => []
  | [x] => x
  | x :: y :: rest => x ++ d ++ join d (y :: rest)

/-! ## The regular expressions of the rule cascade -/

/-- The pieces out of which the four regular expressions of the program are built. -/
inductive Piece where
  /-- A non-capturing alternation of literals, `(?:w1|w2)`; a plain literal has one
  alternative. -/
  | lits (ws : List JSStr)
  /-- The greedy class repetition `[^.]*`. -/
  | notDotStar

/-- Canonicalisation of a code unit under the `i` flag (without `u`), on ASCII. A code unit
outside ASCII never canonicalises to an ASCII one, so it is left alone: all pattern
characters are ASCII. -/
def canonicalize (c : Nat) : Nat := if 97 ≤ c ∧ c ≤ 122 then c - 32 else c

/-- Whether the literal `w` matches at the start of `s`, ignoring ASCII case. -/
def litAt : JSStr → JSStr → Bool
  | [], _ => true
  | _ :: _, [] => false
  | d :: w, c :: s => canonicalize d == canonicalize c && litAt w s

/-- Backtracking matcher anchored at the start of `s`: `[^.]*` tries every length of a
run free of `.`. -/
def matchHere : List Piece → JSStr → Bool
  | [], _ => true
  | .lits ws :: ps, s => ws.any fun w => litAt w s && matchHere ps (s.drop w.length)
  | .notDotStar :: ps, s =>
    (List.range ((s.takeWhile fun c => c != 46).length + 1)).any fun k =>
      matchHere ps (s.drop k)

/-- Whether `s.match(re)` is non-null: the expression matches at some position. -/
def regexMatch (re : List Piece) (s : JSStr) : Bool :=
  s.tails.any fun t => matchHere re t

/-- The expression `/grace period[^.]*(?:thirty|30)[^.]*day[^.]*/i`. -/
def graceRegex1 : List Piece :=
  [.lits [js "grace period"], .notDotStar, .lits [js "thirty", js "30"], .notDotStar,
   .lits [js "day"], .notDotStar]

/-- The expression `/(?:thirty|30)[^.]*day[^.]*grace period[^.]*/i`. -/
def graceRegex2 : List Piece :=
  [.lits [js "thirty", js "30"], .notDotStar, .lits [js "day"], .notDotStar,
   .lits [js "grace period"], .notDotStar]

/-- The expression `/(?:thirty-six|36)[^.]*month[^.]*(?:pre-existing|ped)[^.]*/i`. -/
def pedRegex1 : List Piece :=
  [.lits [js "thirty-six", js "36"], .notDotStar, .lits [js "month"], .notDotStar,
   .lits [js "pre-existing", js "ped"], .notDotStar]

/-- The expression `/(?:pre-existing|ped)[^.]*(?:thirty-six|36)[^.]*month[^.]*/i`. -/
def pedRegex2 : List Piece :=
  [.lits [js "pre-existing", js "ped"], .notDotStar, .lits [js "thirty-six", js "36"],
   .notDotStar, .lits [js "month"], .notDotStar]

/-! ## The lexical fallback ranker -/

/-- The stop words excluded from the keywords. -/
def stopWords : List JSStr :=
  [js "what", js "when", js "where", js "how", js "does", js "this", js "that", js "the",
   js "and", js "are", js "any"]

/-- The constant `sentences` of `findRelevantSentences`:
`text.split(/[.!?]+/).filter((s) => s.trim().length > 20)`. -/
def sentences (text : JSStr) : List JSStr :=
  (split isSentenceEnd text).filter fun s => (trim s).length > 20

/-- The constant `keywords` of `findRelevantSentences`: the question lowercased, split on
`/\s+/`, keeping the words longer than 3 that are not stop words. -/
def keywords (lc : JSStr → JSStr) (question : JSStr) : List JSStr :=
  (split isWhiteSpace (lc question)).filter fun word =>
    word.length > 3 && !(stopWords.contains word)

/-- An element of `scored`: the object with fields `sentence` and `score`. -/
structure Scored where
  /-- The trimmed sentence. -/
  sentence : JSStr
  /-- Its score. -/
  score : Nat
  deriving DecidableEq

/-- The `reduce` over the keywords: one point for each element of `kws` that the
lowercased sentence includes. -/
def score (lc : JSStr → JSStr) (kws : List JSStr) (sentence : JSStr) : Nat :=
  kws.foldl (fun acc keyword => acc + (if includes (lc sentence) keyword then 1 else 0)) 0

/-- The constant `scored` of `findRelevantSentences`. -/
def scored (lc : JSStr → JSStr) (text question : JSStr) : List Scored :=
  (sentences text).map fun sentence =>
    Scored.mk (trim sentence) (score lc (keywords lc question) sentence)

/-- The comparator `(a, b) => b.score - a.score`. -/
def compareScore (a b : Scored) : Int := (b.score : Int) - (a.score : Int)

/-- Insertion of `x` in front of a sorted list, `x` having come before all of its elements
in the input: `x` moves past exactly the elements the comparator puts strictly before it. -/
def sortInsert {α : Type} (cmp : α → α → Int) (x : α) : List α → List α
  | [] => [x]
  | y :: ys => if cmp x y ≤ 0 then x :: y :: ys else y :: sortInsert cmp x ys

/-- Model of `xs.sort(cmp)`. The engine's sort is stable, so for a consistent comparator
its result is determined by the input; it is computed here by insertion. -/
def sort {α : Type} (cmp : α → α → Int) : List α → List α
  | [] => []
  | x :: xs => sortInsert cmp x (sort cmp xs)

/-- The ranked items: `scored.filter((item) => item.score > 0).sort(...)`. -/
def ranked (lc : JSStr → JSStr) (text question : JSStr) : List Scored :=
  sort compareScore ((scored lc text question).filter fun item => item.score > 0)

/-- The function `findRelevantSentences(text, question)`. -/
def findRelevantSentences (lc : JSStr → JSStr) (text question : JSStr) : List JSStr :=
  (ranked lc text question).map fun item => item.sentence

/-! ## Answer generation -/

/-- A value of the parsed JSON request body. -/
inductive JSValue where
  | null
  | bool (b : Bool)
  | number (n : Int)
  | string (s : JSStr)
  | array (xs : List JSValue)
  | object (fields : List (JSStr × JSValue))

/-- The errors raised inside the request processing. -/
inductive JSError where
  /-- A method call on a value that has no such method. -/
  | typeError
  /-- The `Error` thrown for a missing or too short document text. -/
  | error (message : JSStr)
  deriving DecidableEq

/-- The receiver of `question.toLowerCase()`: only a string has the method; for every other
JSON value the call raises a `TypeError`. -/
def JSValue.asString : JSValue → Except JSError JSStr
  | .string s => .ok s
  | _ => .error .typeError

/-- Canned answer of the grace-period rule. -/
def graceAnswer : JSStr := js "A grace period of thirty days is provided for premium payment after the due date to renew or continue the policy without losing continuity benefits."

/-- Canned answer of the pre-existing-disease rule. -/
def pedAnswer : JSStr := js "There is a waiting period of thirty-six (36) months of continuous coverage from the first policy inception for pre-existing diseases and their direct complications to be covered."

/-- Canned answer of the maternity rule. -/
def maternityAnswer : JSStr := js "Yes, the policy covers maternity expenses, including childbirth and lawful medical termination of pregnancy. To be eligible, the female insured person must have been continuously covered for at least 24 months. The benefit is limited to two deliveries or terminations during the policy period."

/-- Canned answer of the cataract rule. -/
def cataractAnswer : JSStr := js "The policy has a specific waiting period of two (2) years for cataract surgery."

/-- Canned answer of the organ-donor rule. -/
def organDonorAnswer : JSStr := js "Yes, the policy indemnifies the medical expenses for the organ donor's hospitalization for the purpose of harvesting the organ, provided the organ is for an insured person and the donation complies with the Transplantation of Human Organs Act, 1994."

/-- Canned answer of the no-claim-discount rule. -/
def ncdAnswer : JSStr := js "A No Claim Discount of 5% on the base premium is offered on renewal for a one-year policy term if no claims were made in the preceding year. The maximum aggregate NCD is capped at 5% of the total base premium."

/-- Canned answer of the preventive-checkup rule. -/
def healthCheckAnswer : JSStr := js "Yes, the policy reimburses expenses for health check-ups at the end of every block of two continuous policy years, provided the policy has been renewed without a break. The amount is subject to the limits specified in the Table of Benefits."

/-- Canned answer of the hospital-definition rule. -/
def hospitalAnswer : JSStr := js "A hospital is defined as an institution with at least 10 inpatient beds (in towns with a population below ten lakhs) or 15 beds (in all other places), with qualified nursing staff and medical practitioners available 24/7, a fully equipped operation theatre, and which maintains daily records of patients."

/-- Canned answer of the AYUSH rule. -/
def ayushAnswer : JSStr := js "The policy covers medical expenses for inpatient treatment under Ayurveda, Yoga, Naturopathy, Unani, Siddha, and Homeopathy systems up to the Sum Insured limit, provided the treatment is taken in an AYUSH Hospital."

/-- Canned answer of the room-rent rule. -/
def roomRentAnswer : JSStr := js "Yes, for Plan A, the daily room rent is capped at 1% of the Sum Insured, and ICU charges are capped at 2% of the Sum Insured. These limits do not apply if the treatment is for a listed procedure in a Preferred Provider Network (PPN)."

/-- The not-found template with the question spliced in. -/
def notFoundMessage (question : JSStr) : JSStr :=
  js "Based on the document analysis, I couldn't find specific information to answer: \"" ++
    question ++
    js "\". Please refer to the complete policy document for detailed information."

/-- The function `generateAnswer(documentText, question)`: the cascade of ten rules, each
returning early when its trigger holds on the question and its evidence on the document,
followed by the fallback ranker and the not-found message. -/
def generateAnswer (lc : JSStr → JSStr) (documentText : JSStr) (question : JSValue) :
    Except JSError JSStr := do
  let text := lc documentText
  let question ← question.asString
  let q := lc question
  if includes q (js "grace period") && includes q (js "premium") then
    let found := regexMatch graceRegex1 text || regexMatch graceRegex2 text
    if found then
      return graceAnswer
  if includes q (js "waiting period") && includes q (js "pre-existing") then
    let found := regexMatch pedRegex1 text || regexMatch pedRegex2 text
    if found then
      return pedAnswer
  if includes q (js "maternity") then
    if includes text (js "maternity") && includes text (js "24") &&
        includes text (js "month") then
      return maternityAnswer
  if includes q (js "cataract") then
    if includes text (js "cataract") &&
        (includes text (js "two") || includes text (js "2")) then
      return cataractAnswer
  if includes q (js "organ donor") then
    if includes text (js "organ") && includes text (js "donor") then
      return organDonorAnswer
  if includes q (js "no claim discount") || includes q (js "ncd") then
    if includes text (js "no claim") && includes text (js "5%") then
      return ncdAnswer
  if includes q (js "health check") || includes q (js "preventive") then
    if includes text (js "health check") || includes text (js "preventive") then
      return healthCheckAnswer
  if includes q (js "hospital") && includes q (js "define") then
    if includes text (js "hospital") &&
        (includes text (js "10") || includes text (js "15")) then
      return hospitalAnswer
  if includes q (js "ayush") then
    if includes text (js "ayush") || includes text (js "ayurveda") then
      return ayushAnswer
  if includes q (js "room rent") && includes q (js "icu") && includes q (js "plan a") then
    if includes text (js "room rent") && includes text (js "1%") &&
        includes text (js "icu") && includes text (js "2%") then
      return roomRentAnswer
  let relevantSentences := findRelevantSentences lc documentText question
  if relevantSentences.length > 0 then
    return trim (join (js " ") (relevantSentences.take 2))
  return notFoundMessage question

/-! ## The request loop -/

mutual
/-- Whether the string conversion of a JSON value throws, as in the template literal
`${question}` of the log line in the `catch` branch. A plain object is converted by its
`toString` method: when the object has an own `toString` key, its value (never a function
in parsed JSON) is skipped, the inherited `valueOf` returns the object itself and the
conversion ends in a `TypeError`; otherwise the inherited method returns a string. An array
is converted by joining the conversions of its elements. -/
def JSValue.stringConversionThrows : JSValue → Bool
  | .array xs => anyStringConversionThrows xs
  | .object fields => fields.any fun field => field.1 == js "toString"
  | _ => false
/-- Whether the conversion of some element of the list throws. -/
def anyStringConversionThrows : List JSValue → Bool
  | [] => false
  | x :: xs => x.stringConversionThrows || anyStringConversionThrows xs
end

/-- The answer pushed by the `catch` branch of the loop. -/
def technicalDifficulties : JSStr :=
  js "Unable to process this question due to technical difficulties."

/-- The per-question loop `for (const question of questions)` with the `answers` pushed so
far. The `try` branch pushes the answer of `generateAnswer`. The `catch` branch first
builds the log line, whose template literal converts the question to a string, and then
pushes the fixed message; an exception of that conversion leaves the loop. -/
def answerLoop (lc : JSStr → JSStr) (documentText : JSStr) :
    List JSValue → List JSStr → Except JSError (List JSStr)
  | [], answers => .ok answers
  | question :: rest, answers =>
    match generateAnswer lc documentText question with
    | .ok answer => answerLoop lc documentText rest (answers ++ [answer])
    | .error _ =>
      if question.stringConversionThrows then .error .typeError
      else answerLoop lc documentText rest (answers ++ [technicalDifficulties])

/-- The function `processHackRxRequest` from the extracted `documentText` on: the length
check, then the loop starting from `const answers = []`; the result is the `answers` field
of the returned object, and the outer `catch` rethrows. -/
def processHackRxRequest (lc : JSStr → JSStr) (documentText : JSStr)
    (questions : List JSValue) : Except JSError (List JSStr) :=
  if documentText.isEmpty || documentText.length < 50 then
    .error (.error (js "Document text extraction failed or document is too short"))
  else
    answerLoop lc documentText questions []

/-- The entry that an iteration of the loop pushes for a question when it does not leave
the loop: the answer of `generateAnswer`, or the fixed message when it throws. -/
def questionAnswer (lc : JSStr → JSStr) (documentText : JSStr) (question : JSValue) : JSStr :=
  match generateAnswer lc documentText question with
  | .ok answer => answer
  | .error _ => technicalDifficulties

/-! ## The rule table of the specification -/

/-- A rule as the specification describes it: a trigger on the lowercased question, an
evidence test on the lowercased document and a canned answer. -/
structure Rule where
  /-- The question trigger. -/
  trigger : JSStr → Bool
  /-- The document evidence. -/
  evidence : JSStr → Bool
  /-- The canned answer. -/
  answer : JSStr

/-- The ten rules in the priority order of the specification's table. -/
def rules : List Rule :=
  [ Rule.mk (fun q => includes q (js "grace period") && includes q (js "premium"))
      (fun t => regexMatch graceRegex1 t || regexMatch graceRegex2 t) graceAnswer,
    Rule.mk (fun q => includes q (js "waiting period") && includes q (js "pre-existing"))
      (fun t => regexMatch pedRegex1 t || regexMatch pedRegex2 t) pedAnswer,
    Rule.mk (fun q => includes q (js "maternity"))
      (fun t => includes t (js "maternity") && includes t (js "24") &&
        includes t (js "month")) maternityAnswer,
    Rule.mk (fun q => includes q (js "cataract"))
      (fun t => includes t (js "cataract") && (includes t (js "two") || includes t (js "2")))
      cataractAnswer,
    Rule.mk (fun q => includes q (js "organ donor"))
      (fun t => includes t (js "organ") && includes t (js "donor")) organDonorAnswer,
    Rule.mk (fun q => includes q (js "no claim discount") || includes q (js "ncd"))
      (fun t => includes t (js "no claim") && includes t (js "5%")) ncdAnswer,
    Rule.mk (fun q => includes q (js "health check") || includes q (js "preventive"))
      (fun t => includes t (js "health check") || includes t (js "preventive"))
      healthCheckAnswer,
    Rule.mk (fun q => includes q (js "hospital") && includes q (js "define"))
      (fun t => includes t (js "hospital") && (includes t (js "10") || includes t (js "15")))
      hospitalAnswer,
    Rule.mk (fun q => includes q (js "ayush"))
      (fun t => includes t (js "ayush") || includes t (js "ayurveda")) ayushAnswer,
    Rule.mk
      (fun q => includes q (js "room rent") && includes q (js "icu") &&
        includes q (js "plan a"))
      (fun t => includes t (js "room rent") && includes t (js "1%") &&
        includes t (js "icu") && includes t (js "2%")) roomRentAnswer ]

/-- A rule fires when its trigger holds on the lowercased question and its evidence on the
lowercased document. -/
def Rule.fires (lc : JSStr → JSStr) (documentText question : JSStr) (r : Rule) : Bool :=
  r.trigger (lc question) && r.evidence (lc documentText)

/-- The answer of the fallback path: the two best ranked sentences, or the not-found
message when nothing is ranked. -/
def fallbackAnswer (lc : JSStr → JSStr) (documentText question : JSStr) : JSStr :=
  if (findRelevantSentences lc documentText question).length > 0 then
    trim (join (js " ") ((findRelevantSentences lc documentText question).take 2))
  else notFoundMessage question

/-! ## The request handler -/

/-- Worker of `splitOn`: `cur` is the current piece reversed. -/
def splitOnAux (d : Nat) : List Nat → List Nat → List JSStr
  | cur, [] => [cur.reverse]
  | cur, c :: cs =>
    if c = d then cur.reverse :: splitOnAux d [] cs else splitOnAux d (c :: cur) cs

/-- Model of `s.split(sep)` for a separator string of the single code unit `d`: every
occurrence of `d` ends a piece. -/
def splitOn (d : Nat) (s : JSStr) : List JSStr := splitOnAux d [] s

/-- Truthiness of a JSON value, as tested by `!value`. -/
def JSValue.truthy : JSValue → Bool
  | .null => false
  | .bool b => b
  | .number n => n != 0
  | .string s => !s.isEmpty
  | .array _ => true
  | .object _ => true

/-- The property read `value.name` for a name that no prototype defines (`documents`,
`questions`): it throws on `null`, yields the own property of an object (the last of
duplicate keys, as `JSON.parse` keeps it) and `undefined`, rendered `none`, otherwise. -/
def JSValue.getProp (name : JSStr) : JSValue → Except JSError (Option JSValue)
  | .null => .error .typeError
  | .object fields => .ok ((fields.reverse.find? fun field => field.1 == name).map fun f => f.2)
  | _ => .ok none

/-- The part of the `event` that the handler reads; `event.headers` is an object, as the
platform provides it. -/
structure Event where
  /-- The field `event.httpMethod`. -/
  httpMethod : JSStr
  /-- The outcome of `JSON.parse(event.body)`: the parsed value, or the exception. -/
  body : Except JSError JSValue
  /-- The header `event.headers.authorization`, `none` when undefined. -/
  authorization : Option JSStr
  /-- The header `event.headers.Authorization`, `none` when undefined. -/
  Authorization : Option JSStr

/-- The body of a response, before `JSON.stringify`. -/
inductive ResponseBody where
  /-- The empty body of the preflight response. -/
  | empty
  /-- An object with the field `error`. -/
  | error (message : JSStr)
  /-- The object with the field `answers`. -/
  | answers (answers : List JSStr)

/-- The response of the handler, with the record of whether `processHackRxRequest` was
called on the way. -/
structure HandlerResult where
  /-- The field `statusCode` of the returned object. -/
  statusCode : Nat
  /-- The field `body` of the returned object. -/
  body : ResponseBody
  /-- Whether the call `processHackRxRequest(body.documents, body.questions)` was reached. -/
  invoked : Bool

/-- The constant `authHeader`: `event.headers.authorization || event.headers.Authorization`. -/
def authHeader (event : Event) : Option JSStr :=
  match event.authorization with
  | some h => if h.isEmpty then event.Authorization else some h
  | none => event.Authorization

/-- The function `exports.handler` on a request. `BEARER_TOKEN` is the environment variable
(`none` when unset) and `extractText` stands for the download and text extraction at the
head of `processHackRxRequest`, which the embedding of that function leaves out. -/
def handler (lc : JSStr → JSStr) (BEARER_TOKEN : Option JSStr)
    (extractText : JSValue → Except JSError JSStr) (event : Event) : HandlerResult :=
  if event.httpMethod = js "OPTIONS" then ⟨200, .empty, false⟩
  else if event.httpMethod ≠ js "POST" then ⟨405, .error (js "Method not allowed"), false⟩
  else
    match event.body with
    | .error _ => ⟨500, .error (js "Internal server error"), false⟩
    | .ok body =>
      match authHeader event with
      | none => ⟨401, .error (js "Missing or invalid authorization header"), false⟩
      | some header =>
        if header.isEmpty ∨ startsWith header (js "Bearer ") = false then
          ⟨401, .error (js "Missing or invalid authorization header"), false⟩
        else
          let token := (splitOn 32 header)[1]?
          match BEARER_TOKEN with
          | none => ⟨401, .error (js "Invalid bearer token"), false⟩
          | some expectedToken =>
            if expectedToken.isEmpty ∨ token ≠ some expectedToken then
              ⟨401, .error (js "Invalid bearer token"), false⟩
            else
              match body.getProp (js "documents"), body.getProp (js "questions") with
              | .ok (some documents), .ok (some (.array questions)) =>
                if documents.truthy then
                  match extractText documents >>= fun documentText =>
                      processHackRxRequest lc documentText questions with
                  | .ok answers => ⟨200, .answers answers, true⟩
                  | .error _ => ⟨500, .error (js "Internal server error"), true⟩
                else
                  ⟨400, .error (js "Invalid request format. Required: documents (string) and questions (array)"), false⟩
              | .ok _, .ok _ =>
                ⟨400, .error (js "Invalid request format. Required: documents (string) and questions (array)"), false⟩
              | _, _ => ⟨500, .error (js "Internal server error"), false⟩

/-! ## Period-free segments -/

/-- The maximal runs of code units of `s` that contain no `.` (code unit 46): the pieces
between consecutive periods. -/
def periodFreeSegments (s : JSStr) : List JSStr := splitOn 46 s

/-! ## The cascade as a search in the rule table -/

theorem ite_nest {α : Type} (c d : Bool) (a b : α) :
    (if c = true then (if d = true then a else b) else b) =
      if (c && d) = true then a else b := by
  cases c <;> cases d <;> rfl

theorem find_cascade (fire : Rule → Bool) (fb : JSStr) (rs : List Rule) :
    (match rs.find? fire with
      | some r => r.answer
      | none => fb) =
      rs.foldr (fun r rest => if fire r = true then r.answer else rest) fb := by
  induction rs with
  | nil => rfl
  | cons r rs ih =>
    cases h : fire r
    · simp only [List.find?, h, List.foldr]
      simpa using ih
    · simp [List.find?, h, List.foldr]

/-- On a string question `generateAnswer` returns the answer of the first rule of the table
that fires, and the fallback answer when none does. -/
theorem generateAnswer_string (lc : JSStr → JSStr) (doc q : JSStr) :
    generateAnswer lc doc (.string q) =
      .ok (match rules.find? (Rule.fires lc doc q) with
           | some r => r.answer
           | none => fallbackAnswer lc doc q) := by
  have hb : ∀ (f : JSStr → Except JSError JSStr), (Except.ok q >>= f) = f q := fun _ => rfl
  have hp : ∀ a : JSStr, (pure a : Except JSError JSStr) = Except.ok a := fun _ => rfl
  have hi : ∀ (c : Prop) [Decidable c] (a b : JSStr),
      (if c then (Except.ok a : Except JSError JSStr) else Except.ok b) =
        Except.ok (if c then a else b) := by
    intro c _ a b
    by_cases h : c
    · rw [if_pos h, if_pos h]
    · rw [if_neg h, if_neg h]
  rw [find_cascade]
  simp only [generateAnswer, JSValue.asString, hb, pure_bind, ite_nest, rules, List.foldr,
    Rule.fires, fallbackAnswer, hp, hi]

/-- Every value that is not a string makes `generateAnswer` throw. -/
theorem generateAnswer_nonString (lc : JSStr → JSStr) (doc : JSStr) (v : JSValue)
    (hv : ∀ s, v ≠ .string s) : generateAnswer lc doc v = .error .typeError := by
  cases v with
  | string s => exact absurd rfl (hv s)
  | _ => rfl

/-! ## Claim C1 -/

/-- C1: if some rule of the table has its trigger holding on the lowercased question and its
evidence on the lowercased document, `generateAnswer` returns the canned answer of the
first such rule in table order, whatever later rules also match. -/
theorem generateAnswer_first_rule_wins (lc : JSStr → JSStr) (doc q : JSStr)
    (h : ∃ r ∈ rules, r.fires lc doc q = true) :
    ∃ r, rules.find? (Rule.fires lc doc q) = some r ∧
      generateAnswer lc doc (.string q) = .ok r.answer := by
  obtain ⟨r0, hr0, hf0⟩ := h
  cases hfind : rules.find? (Rule.fires lc doc q) with
  | none =>
    have := List.find?_eq_none.mp hfind r0 hr0
    exact absurd hf0 this
  | some r =>
    refine ⟨r, rfl, ?_⟩
    rw [generateAnswer_string, hfind]

/-- Witness of C1: the question triggers the maternity and the cataract rule, the document
has the evidence of both, and the maternity answer (the earlier rule) is returned. -/
theorem generateAnswer_first_rule_wins_witness :
    (∃ r, rules.find? (Rule.fires asciiLower
        (js "Maternity cover starts after 24 months. Cataract has a two year wait.")
        (js "Is maternity or cataract covered?")) = some r ∧
      generateAnswer asciiLower
        (js "Maternity cover starts after 24 months. Cataract has a two year wait.")
        (.string (js "Is maternity or cataract covered?")) = .ok r.answer) ∧
    generateAnswer asciiLower
        (js "Maternity cover starts after 24 months. Cataract has a two year wait.")
        (.string (js "Is maternity or cataract covered?")) = .ok maternityAnswer :=
  ⟨generateAnswer_first_rule_wins asciiLower _ _
      ⟨Rule.mk (fun q => includes q (js "cataract"))
        (fun t => includes t (js "cataract") &&
          (includes t (js "two") || includes t (js "2"))) cataractAnswer,
        by simp [rules], by decide⟩,
    by rfl⟩

/-! ## Claim C2 -/

theorem generateAnswer_grace (lc : JSStr → JSStr) (doc q : JSStr)
    (hq1 : includes (lc q) (js "grace period") = true)
    (hq2 : includes (lc q) (js "premium") = true)
    (hd : regexMatch graceRegex1 (lc doc) = true ∨ regexMatch graceRegex2 (lc doc) = true) :
    generateAnswer lc doc (.string q) = .ok graceAnswer := by
  have hfire : (regexMatch graceRegex1 (lc doc) || regexMatch graceRegex2 (lc doc)) = true := by
    rcases hd with h | h <;> simp [h]
  rw [generateAnswer_string]
  unfold rules
  rw [List.find?_cons_of_pos]
  simp only [Rule.fires, hq1, hq2, hfire, Bool.and_self]

/-- C2: when the lowercased question contains both "grace period" and "premium" and the
lowercased document matches one of the two grace-period expressions, `generateAnswer`
returns exactly the canned thirty-day sentence; any other document matching one of the
expressions receives the same answer for that question. -/
theorem generateAnswer_grace_period (lc : JSStr → JSStr) (doc q : JSStr)
    (hq1 : includes (lc q) (js "grace period") = true)
    (hq2 : includes (lc q) (js "premium") = true)
    (hd : regexMatch graceRegex1 (lc doc) = true ∨ regexMatch graceRegex2 (lc doc) = true) :
    generateAnswer lc doc (.string q) = .ok (js "A grace period of thirty days is provided for premium payment after the due date to renew or continue the policy without losing continuity benefits.") ∧
    ∀ doc2 : JSStr,
      (regexMatch graceRegex1 (lc doc2) = true ∨ regexMatch graceRegex2 (lc doc2) = true) →
      generateAnswer lc doc2 (.string q) = generateAnswer lc doc (.string q) := by
  refine ⟨generateAnswer_grace lc doc q hq1 hq2 hd, fun doc2 hd2 => ?_⟩
  rw [generateAnswer_grace lc doc q hq1 hq2 hd, generateAnswer_grace lc doc2 q hq1 hq2 hd2]

/-- Witness of C2: a document matching the first expression and, as second document, one
matching only the second expression. -/
theorem generateAnswer_grace_period_witness :
    generateAnswer asciiLower (js "A Grace Period of 30 days applies. Other text.")
        (.string (js "What is the grace period for premium payment?")) =
      .ok (js "A grace period of thirty days is provided for premium payment after the due date to renew or continue the policy without losing continuity benefits.") ∧
    generateAnswer asciiLower (js "Thirty days are given as grace period")
        (.string (js "What is the grace period for premium payment?")) =
      generateAnswer asciiLower (js "A Grace Period of 30 days applies. Other text.")
        (.string (js "What is the grace period for premium payment?")) :=
  have h := generateAnswer_grace_period asciiLower
    (js "A Grace Period of 30 days applies. Other text.")
    (js "What is the grace period for premium payment?") (by decide) (by decide)
    (Or.inl (by decide))
  ⟨h.1, h.2 (js "Thirty days are given as grace period") (Or.inr (by decide))⟩

/-! ## Facts about the string primitives and the ranker -/

theorem splitAux_no_sep (sep : Nat → Bool) :
    ∀ (s : List Nat) (b : Bool) (cur : List Nat), (∀ c ∈ cur, sep c = false) →
      ∀ p ∈ splitAux sep b cur s, ∀ c ∈ p, sep c = false := by
  intro s
  induction s with
  | nil =>
    intro b cur hcur p hp c hc
    simp only [splitAux, List.mem_singleton] at hp
    subst hp
    exact hcur c (List.mem_reverse.mp hc)
  | cons a s ih =>
    intro b cur hcur p hp c hc
    have hnil : ∀ c ∈ ([] : List Nat), sep c = false := fun c hc => by cases hc
    cases hsep : sep a
    · simp only [splitAux, hsep] at hp
      refine ih false (a :: cur) ?_ p hp c hc
      intro d hd
      rcases List.mem_cons.mp hd with h | h
      · subst h; exact hsep
      · exact hcur d h
    · cases b
      · simp only [splitAux, hsep, if_true] at hp
        rcases List.mem_cons.mp hp with h | h
        · subst h
          exact hcur c (List.mem_reverse.mp hc)
        · exact ih true [] hnil p h c hc
      · simp only [splitAux, hsep, if_true] at hp
        exact ih true [] hnil p hp c hc

theorem split_no_sep (sep : Nat → Bool) (s : JSStr) :
    ∀ p ∈ split sep s, ∀ c ∈ p, sep c = false :=
  splitAux_no_sep sep s false [] (fun c hc => by cases hc)

theorem trim_eq (s : JSStr) :
    trim s = (s.dropWhile isWhiteSpace).rdropWhile isWhiteSpace := rfl

theorem trim_subset (s : JSStr) : ∀ c ∈ trim s, c ∈ s := by
  intro c hc
  rw [trim_eq] at hc
  exact List.dropWhile_subset _ ((List.rdropWhile_prefix isWhiteSpace _).subset hc)

theorem trim_trim (s : JSStr) : trim (trim s) = trim s := by
  have h1 : (trim s).dropWhile isWhiteSpace = trim s := by
    rw [List.dropWhile_eq_self_iff]
    intro hl
    have hpre : trim s <+: s.dropWhile isWhiteSpace := by
      rw [trim_eq]; exact List.rdropWhile_prefix isWhiteSpace _
    obtain ⟨t, ht⟩ := hpre
    have hlen : 0 < (s.dropWhile isWhiteSpace).length := by
      rw [← ht, List.length_append]; omega
    have h0 := List.dropWhile_get_zero_not isWhiteSpace s hlen
    have : (trim s).get ⟨0, hl⟩ = (s.dropWhile isWhiteSpace).get ⟨0, hlen⟩ := by
      simp only [List.get_eq_getElem]
      simp only [← ht]
      rw [List.getElem_append_left]
    rw [this]
    exact h0
  show ((trim s).dropWhile isWhiteSpace).rdropWhile isWhiteSpace = trim s
  rw [h1, trim_eq, List.rdropWhile_idempotent]

theorem mem_join (d : JSStr) : ∀ (l : List JSStr) (c : Nat),
    c ∈ join d l → c ∈ d ∨ ∃ x ∈ l, c ∈ x
  | [], c, h => by cases h
  | [x], c, h => Or.inr ⟨x, List.mem_singleton.mpr rfl, h⟩
  | x :: y :: rest, c, h => by
    simp only [join, List.mem_append] at h
    rcases h with (h | h) | h
    · exact Or.inr ⟨x, List.mem_cons_self _ _, h⟩
    · exact Or.inl h
    · rcases mem_join d (y :: rest) c h with h | ⟨z, hz, hc⟩
      · exact Or.inl h
      · exact Or.inr ⟨z, List.mem_cons_of_mem _ hz, hc⟩

theorem sortInsert_perm {α : Type} (cmp : α → α → Int) (x : α) :
    ∀ l : List α, (sortInsert cmp x l).Perm (x :: l)
  | [] => List.Perm.refl _
  | y :: ys => by
    unfold sortInsert
    split
    · exact List.Perm.refl _
    · exact ((sortInsert_perm cmp x ys).cons y).trans (List.Perm.swap x y ys)

theorem sort_perm {α : Type} (cmp : α → α → Int) : ∀ l : List α, (sort cmp l).Perm l
  | [] => List.Perm.refl _
  | x :: xs => (sortInsert_perm cmp x (sort cmp xs)).trans ((sort_perm cmp xs).cons x)

/-- Every returned sentence is the trimmed form of a piece of the document that is longer
than 20 after trimming and has a positive score. -/
theorem mem_findRelevantSentences (lc : JSStr → JSStr) (text q s : JSStr) :
    s ∈ findRelevantSentences lc text q ↔
      ∃ p ∈ split isSentenceEnd text, 20 < (trim p).length ∧
        0 < score lc (keywords lc q) p ∧ s = trim p := by
  unfold findRelevantSentences ranked scored sentences
  simp only [List.mem_map, (sort_perm compareScore _).mem_iff, List.mem_filter,
    decide_eq_true_eq, gt_iff_lt]
  constructor
  · rintro ⟨item, ⟨⟨p, ⟨hp, hlen⟩, rfl⟩, hpos⟩, rfl⟩
    exact ⟨p, hp, hlen, hpos, rfl⟩
  · rintro ⟨p, hp, hlen, hpos, rfl⟩
    exact ⟨_, ⟨⟨p, ⟨hp, hlen⟩, rfl⟩, hpos⟩, rfl⟩

/-! ## Claim C3 -/

theorem rules_answer_pairwise : rules.Pairwise fun a b => a.answer ≠ b.answer := by
  unfold rules
  simp only [List.pairwise_cons, List.mem_cons, List.mem_singleton, forall_eq_or_imp,
    forall_eq, List.not_mem_nil, false_implies, implies_true, List.Pairwise.nil, and_true]
  and_intros <;> decide

theorem rules_answer_inj (r1 r2 : Rule) (h1 : r1 ∈ rules) (h2 : r2 ∈ rules)
    (h : r1.answer = r2.answer) : r1 = r2 := by
  by_contra hne
  have hsymm : Symmetric fun a b : Rule => a.answer ≠ b.answer :=
    fun _ _ hab hba => hab hba.symm
  exact rules_answer_pairwise.forall hsymm h1 h2 hne h

theorem rules_answer_has_period : ∀ r ∈ rules, 46 ∈ r.answer := by
  unfold rules
  simp only [List.mem_cons, List.mem_singleton, forall_eq_or_imp, forall_eq,
    List.not_mem_nil, false_implies, implies_true, and_true]
  and_intros <;> decide

theorem rules_answer_head : ∀ r ∈ rules, r.answer.head? ≠ some 66 := by
  unfold rules
  simp only [List.mem_cons, List.mem_singleton, forall_eq_or_imp, forall_eq,
    List.not_mem_nil, false_implies, implies_true, and_true]
  and_intros <;> decide

theorem findRelevantSentences_no_period (lc : JSStr → JSStr) (text q : JSStr) :
    ∀ s ∈ findRelevantSentences lc text q, ∀ c ∈ s, isSentenceEnd c = false := by
  intro s hs c hc
  obtain ⟨p, hp, _, _, rfl⟩ := (mem_findRelevantSentences lc text q s).mp hs
  exact split_no_sep isSentenceEnd text p hp c (trim_subset p c hc)

theorem fallbackAnswer_ne_rule (lc : JSStr → JSStr) (doc q : JSStr) (r : Rule)
    (hr : r ∈ rules) : fallbackAnswer lc doc q ≠ r.answer := by
  intro heq
  unfold fallbackAnswer at heq
  split at heq
  · have h46 : (46 : Nat) ∈ trim (join (js " ") ((findRelevantSentences lc doc q).take 2)) := by
      rw [heq]; exact rules_answer_has_period r hr
    rcases mem_join _ _ _ (trim_subset _ _ h46) with h | ⟨x, hx, hc⟩
    · revert h; decide
    · have := findRelevantSentences_no_period lc doc q x (List.mem_of_mem_take hx) 46 hc
      revert this; decide
  · have := rules_answer_head r hr
    rw [← heq] at this
    exact this rfl

/-- C3: for each rule of the table, when its evidence does not hold on the lowercased
document the result of `generateAnswer` on a string question is never that rule's canned
answer, whichever path produces the result (another rule, the ranked sentences or the
not-found message) and whether or not the rule's trigger holds. -/
theorem generateAnswer_no_evidence_no_answer (lc : JSStr → JSStr) (doc q : JSStr)
    (r : Rule) (hr : r ∈ rules) (hev : r.evidence (lc doc) = false) :
    generateAnswer lc doc (.string q) ≠ .ok r.answer := by
  rw [generateAnswer_string]
  intro heq
  have heq2 := Except.ok.inj heq
  cases hfind : rules.find? (Rule.fires lc doc q) with
  | none =>
    rw [hfind] at heq2
    exact fallbackAnswer_ne_rule lc doc q r hr heq2
  | some r2 =>
    rw [hfind] at heq2
    have hmem : r2 ∈ rules := List.mem_of_find?_eq_some hfind
    have hfire : r2.fires lc doc q = true := List.find?_some hfind
    have : r2 = r := rules_answer_inj r2 r hmem hr heq2
    subst this
    simp [Rule.fires, hev] at hfire

/-- Witness of C3: the question triggers the grace-period rule, the document states the
grace period and the thirty days in two different sentences, so the evidence fails and the
answer is the ranked sentence, not the canned one. -/
theorem generateAnswer_no_evidence_no_answer_witness :
    (fun q : JSStr => includes q (js "grace period") && includes q (js "premium"))
        (asciiLower (js "What is the grace period for premium payment?")) = true ∧
    generateAnswer asciiLower
        (js "The policy has a grace period. It lasts for 30 days after the due date.")
        (.string (js "What is the grace period for premium payment?")) ≠ .ok graceAnswer :=
  ⟨by decide,
    generateAnswer_no_evidence_no_answer asciiLower
      (js "The policy has a grace period. It lasts for 30 days after the due date.")
      (js "What is the grace period for premium payment?")
      (Rule.mk (fun q => includes q (js "grace period") && includes q (js "premium"))
        (fun t => regexMatch graceRegex1 t || regexMatch graceRegex2 t) graceAnswer)
      (by simp [rules]) (by decide)⟩

/-! ## Claims C4 and C5: the request loop -/

theorem stringConversionThrows_string (q : JSStr) :
    (JSValue.string q).stringConversionThrows = false := by
  simp [JSValue.stringConversionThrows]

/-- When the conversion of no question throws, the loop completes and appends the entry of
every question in order. -/
theorem answerLoop_ok (lc : JSStr → JSStr) (doc : JSStr) :
    ∀ (qs : List JSValue) (acc : List JSStr),
      (∀ q ∈ qs, q.stringConversionThrows = false) →
      answerLoop lc doc qs acc = .ok (acc ++ qs.map (questionAnswer lc doc))
  | [], acc, _ => by simp [answerLoop]
  | q :: qs, acc, h => by
    have hq : q.stringConversionThrows = false := h q (List.mem_cons_self _ _)
    have hrest : ∀ q2 ∈ qs, q2.stringConversionThrows = false :=
      fun q2 hq2 => h q2 (List.mem_cons_of_mem _ hq2)
    unfold answerLoop
    cases hg : generateAnswer lc doc q with
    | ok a =>
      simp only [answerLoop_ok lc doc qs _ hrest, List.map_cons, questionAnswer, hg,
        List.append_assoc, List.singleton_append]
    | error e =>
      simp only [hq, answerLoop_ok lc doc qs _ hrest, List.map_cons, questionAnswer, hg,
        List.append_assoc, List.singleton_append, Bool.false_eq_true, if_false]

/-- A question on which `generateAnswer` fails and whose conversion throws ends the loop
with an exception, whatever was answered before and whatever follows. -/
theorem answerLoop_abort (lc : JSStr → JSStr) (doc : JSStr) (q : JSValue)
    (hq : q.stringConversionThrows = true) (e : JSError)
    (hfail : generateAnswer lc doc q = .error e) :
    ∀ (before after : List JSValue) (acc : List JSStr),
      (∀ p ∈ before, p.stringConversionThrows = false) →
      answerLoop lc doc (before ++ q :: after) acc = .error .typeError
  | [], after, acc, _ => by
    simp only [List.nil_append, answerLoop, hfail, hq, if_true]
  | p :: before, after, acc, h => by
    have hp : p.stringConversionThrows = false := h p (List.mem_cons_self _ _)
    have hrest : ∀ p2 ∈ before, p2.stringConversionThrows = false :=
      fun p2 hp2 => h p2 (List.mem_cons_of_mem _ hp2)
    rw [List.cons_append]
    unfold answerLoop
    cases hg : generateAnswer lc doc p with
    | ok a => simp only [answerLoop_abort lc doc q hq e hfail before after _ hrest]
    | error e2 =>
      simp only [hp, answerLoop_abort lc doc q hq e hfail before after _ hrest,
        Bool.false_eq_true, if_false]

theorem processHackRxRequest_ok (lc : JSStr → JSStr) (doc : JSStr) (qs : List JSValue)
    (hlen : 50 ≤ doc.length) :
    processHackRxRequest lc doc qs = answerLoop lc doc qs [] := by
  have hne : doc.isEmpty = false := by
    cases doc with
    | nil => simp at hlen
    | cons _ _ => rfl
  have hlt : ¬ doc.length < 50 := by omega
  simp [processHackRxRequest, hne, hlt]

/-- On question strings the loop is a positional map: for a document text of at least 50
code units and a list of strings, `processHackRxRequest` returns an answers list of the same
length whose entry at every index `i` is the answer `generateAnswer` computes for
`questions[i]`. -/
theorem processHackRxRequest_positional (lc : JSStr → JSStr) (doc : JSStr)
    (qs : List JSStr) (hlen : 50 ≤ doc.length) :
    ∃ answers, processHackRxRequest lc doc (qs.map JSValue.string) = .ok answers ∧
      answers.length = qs.length ∧
      ∀ (i : Nat) (hi : i < qs.length), ∃ a,
        generateAnswer lc doc (.string qs[i]) = .ok a ∧ answers[i]? = some a := by
  have hconv : ∀ q ∈ qs.map JSValue.string, q.stringConversionThrows = false := by
    intro q hq
    obtain ⟨s, _, rfl⟩ := List.mem_map.mp hq
    exact stringConversionThrows_string s
  refine ⟨(qs.map JSValue.string).map (questionAnswer lc doc), ?_, ?_, ?_⟩
  · rw [processHackRxRequest_ok lc doc _ hlen, answerLoop_ok lc doc _ _ hconv,
      List.nil_append]
  · rw [List.length_map, List.length_map]
  · intro i hi
    refine ⟨questionAnswer lc doc (.string qs[i]), ?_, ?_⟩
    · rw [generateAnswer_string, questionAnswer, generateAnswer_string]
    · rw [List.map_map, List.getElem?_map, List.getElem?_eq_getElem hi, Option.map_some']
      rfl

/-- Example of the positional map: three question strings on a document of 53 code units,
the second answered by the cataract rule, the others by the not-found message. -/
theorem processHackRxRequest_positional_witness :
    ∃ answers,
      processHackRxRequest asciiLower
        (js "Cataract surgery is covered after two years of cover.")
        ([js "zebra", js "Is cataract covered?", js "lion"].map JSValue.string) =
          .ok answers ∧
      answers.length = 3 ∧
      ∀ (i : Nat) (hi : i < 3), ∃ a,
        generateAnswer asciiLower (js "Cataract surgery is covered after two years of cover.")
          (.string [js "zebra", js "Is cataract covered?", js "lion"][i]) = .ok a ∧
        answers[i]? = some a :=
  processHackRxRequest_positional asciiLower
    (js "Cataract surgery is covered after two years of cover.")
    [js "zebra", js "Is cataract covered?", js "lion"] (by decide)

/-- When `generateAnswer` fails on the question at index `i` and the conversion of no
question throws, the loop produces one answer per question, the entry at `i` is the fixed
message and every other entry is the answer its question receives when processed alone. -/
theorem answerLoop_failure_isolated (lc : JSStr → JSStr) (doc : JSStr) (qs : List JSValue)
    (hconv : ∀ q ∈ qs, q.stringConversionThrows = false)
    (i : Nat) (hi : i < qs.length) (hfail : ∃ e, generateAnswer lc doc qs[i] = .error e) :
    ∃ answers, answerLoop lc doc qs [] = .ok answers ∧
      answers.length = qs.length ∧
      answers[i]? = some technicalDifficulties ∧
      ∀ (j : Nat) (hj : j < qs.length), j ≠ i →
        ∃ a, answers[j]? = some a ∧ answerLoop lc doc [qs[j]] [] = .ok [a] := by
  obtain ⟨e, he⟩ := hfail
  refine ⟨qs.map (questionAnswer lc doc), ?_, ?_, ?_, ?_⟩
  · rw [answerLoop_ok lc doc qs [] hconv, List.nil_append]
  · rw [List.length_map]
  · rw [List.getElem?_map, List.getElem?_eq_getElem hi, Option.map_some', questionAnswer, he]
  · intro j hj _
    refine ⟨questionAnswer lc doc qs[j], ?_, ?_⟩
    · rw [List.getElem?_map, List.getElem?_eq_getElem hj, Option.map_some']
    · rw [answerLoop_ok lc doc [qs[j]] [] ?_, List.nil_append, List.map_singleton]
      intro q hq
      rw [List.mem_singleton.mp hq]
      exact hconv _ (List.getElem_mem hj)

/-- C4, failing input: the document has 53 code units and passes the length check, the
question list is a JSON array of two values, and the loop produces no answers list at all:
the log line of the `catch` branch throws on the second question, so there is neither a
list of length 2 nor an entry for the first question. -/
theorem processHackRxRequest_no_answers_list :
    50 ≤ (js "Cataract surgery is covered after two years of cover.").length ∧
    answerLoop asciiLower (js "Cataract surgery is covered after two years of cover.")
        [.string (js "Is cataract covered?"), .object [(js "toString", .number 1)]] [] =
      .error .typeError ∧
    ∀ answers : List JSStr,
      processHackRxRequest asciiLower
        (js "Cataract surgery is covered after two years of cover.")
        [.string (js "Is cataract covered?"), .object [(js "toString", .number 1)]] ≠
      .ok answers := by
  refine ⟨by decide, rfl, fun answers h => ?_⟩
  have herr : processHackRxRequest asciiLower
      (js "Cataract surgery is covered after two years of cover.")
      [.string (js "Is cataract covered?"), .object [(js "toString", .number 1)]] =
      .error .typeError := rfl
  rw [herr] at h
  cases h

/-- C5, failing input: the second question is the JSON object with the single key
`toString`. `generateAnswer` throws on it, the log line of the `catch` branch throws while
converting it to a string, and the whole request fails: no entry is pushed for it and the
answer of the first question is lost. -/
theorem processHackRxRequest_aborts_on_unprintable_question :
    generateAnswer asciiLower (js "Cataract surgery is covered after two years of cover.")
        (.string (js "Is cataract covered?")) = .ok cataractAnswer ∧
    generateAnswer asciiLower (js "Cataract surgery is covered after two years of cover.")
        (.object [(js "toString", .number 1)]) = .error .typeError ∧
    processHackRxRequest asciiLower (js "Cataract surgery is covered after two years of cover.")
        [.string (js "Is cataract covered?"), .object [(js "toString", .number 1)]] =
      .error .typeError := by
  refine ⟨rfl, rfl, rfl⟩

/-! ## Claim C6: the example of the specification -/

/-- C6, counterexample: on the document and question of the example the ranking is not a
non-empty list of the sentences containing "cat" without "The dog ran fast": it is empty. -/
theorem findRelevantSentences_cats_not_ranked :
    ¬ (findRelevantSentences asciiLower
          (js "The cat sat. The dog ran fast. Cats and dogs play.")
          (js "Tell me about cats") ≠ [] ∧
        (∀ s ∈ findRelevantSentences asciiLower
            (js "The cat sat. The dog ran fast. Cats and dogs play.")
            (js "Tell me about cats"), includes (asciiLower s) (js "cat") = true) ∧
        js "The dog ran fast" ∉ findRelevantSentences asciiLower
          (js "The cat sat. The dog ran fast. Cats and dogs play.")
          (js "Tell me about cats")) := by
  intro h
  exact h.1 (by decide)

/-- C6, amended: on the document and question of the example every sentence candidate has
at most 20 code units after trimming (11, 16 and 18), so the length filter discards all of
them and the ranking is empty; it contains no sentence at all, so not "The dog ran fast"
either. Against the keywords "tell", "about", "cats" the candidates "The cat sat" and
"The dog ran fast" score 0 and "Cats and dogs play" scores 1. -/
theorem findRelevantSentences_cats_example :
    (split isSentenceEnd (js "The cat sat. The dog ran fast. Cats and dogs play.")).map
        (fun p => (trim p, (trim p).length,
          score asciiLower (keywords asciiLower (js "Tell me about cats")) p)) =
      [(js "The cat sat", 11, 0), (js "The dog ran fast", 16, 0),
       (js "Cats and dogs play", 18, 1), ([], 0, 0)] ∧
    sentences (js "The cat sat. The dog ran fast. Cats and dogs play.") = [] ∧
    findRelevantSentences asciiLower
      (js "The cat sat. The dog ran fast. Cats and dogs play.")
      (js "Tell me about cats") = [] ∧
    js "The dog ran fast" ∉ findRelevantSentences asciiLower
      (js "The cat sat. The dog ran fast. Cats and dogs play.")
      (js "Tell me about cats") := by
  refine ⟨by decide, by decide, by decide, by decide⟩

/-! ## Claim C7: the score -/

theorem foldl_score (p : JSStr → Bool) : ∀ (kws : List JSStr) (n : Nat),
    kws.foldl (fun acc keyword => acc + (if p keyword then 1 else 0)) n = n + kws.countP p
  | [], n => by simp
  | k :: kws, n => by
    rw [List.foldl_cons, foldl_score p kws, List.countP_cons]
    cases p k
    · simp
    · simp only [if_true]
      omega

theorem score_eq_countP (lc : JSStr → JSStr) (kws : List JSStr) (sentence : JSStr) :
    score lc kws sentence = kws.countP (fun k => includes (lc sentence) k) := by
  rw [score, foldl_score (fun k => includes (lc sentence) k), Nat.zero_add]

/-- C7, counterexample: the question "cats cats" has the keyword "cats" twice and the only
sentence candidate scores 2, although exactly one distinct keyword occurs in it. -/
theorem score_counts_repeated_keyword :
    scored asciiLower (js "Cats and dogs play together daily.") (js "cats cats") =
      [Scored.mk (js "Cats and dogs play together daily") 2] ∧
    (((keywords asciiLower (js "cats cats")).dedup.filter fun k =>
      includes (asciiLower (js "Cats and dogs play together daily")) k).length = 1) := by
  refine ⟨by decide, by decide⟩

/-- C7, amended: the score of a sentence candidate is the number of entries of the keyword
list of the question (one entry for each occurrence of a word in the question) that occur
as a substring of the lowercased sentence; a keyword occurring in the sentence contributes
as many points as it has occurrences in the question. -/
theorem scored_score_counts_keyword_entries (lc : JSStr → JSStr) (text q : JSStr) :
    scored lc text q = (sentences text).map (fun s =>
      Scored.mk (trim s) ((keywords lc q).countP fun k => includes (lc s) k)) ∧
    ∀ s : JSStr, score lc (keywords lc q) s =
      (((keywords lc q).dedup.filter fun k => includes (lc s) k).map
        fun k => (keywords lc q).countP fun w => decide (w = k)).sum := by
  refine ⟨?_, fun s => ?_⟩
  · unfold scored
    exact List.map_congr_left fun s _ => by rw [score_eq_countP]
  · rw [score_eq_countP]
    exact (List.sum_map_count_dedup_filter_eq_countP (fun k => includes (lc s) k)
      (keywords lc q)).symm

/-! ## Claim C8: the ranking -/

theorem compareScore_le (a b : Scored) : compareScore a b ≤ 0 ↔ b.score ≤ a.score := by
  unfold compareScore
  omega

theorem sortInsert_sorted (x : Scored) : ∀ l : List Scored,
    l.Pairwise (fun a b => a.score ≥ b.score) →
      (sortInsert compareScore x l).Pairwise (fun a b => a.score ≥ b.score)
  | [], _ => List.pairwise_singleton _ _
  | y :: ys, h => by
    have hy := List.pairwise_cons.mp h
    unfold sortInsert
    split
    next hle =>
      rw [compareScore_le] at hle
      refine List.pairwise_cons.mpr ⟨fun z hz => ?_, h⟩
      rcases List.mem_cons.mp hz with hz | hz
      · subst hz; exact hle
      · exact Nat.le_trans (hy.1 z hz) hle
    next hgt =>
      rw [compareScore_le] at hgt
      refine List.pairwise_cons.mpr ⟨fun z hz => ?_, sortInsert_sorted x ys hy.2⟩
      rcases List.mem_cons.mp ((sortInsert_perm compareScore x ys).mem_iff.mp hz) with hz | hz
      · subst hz; exact Nat.le_of_lt (Nat.lt_of_not_le hgt)
      · exact hy.1 z hz

theorem sort_sorted : ∀ l : List Scored,
    (sort compareScore l).Pairwise (fun a b => a.score ≥ b.score)
  | [] => List.Pairwise.nil
  | x :: xs => sortInsert_sorted x (sort compareScore xs) (sort_sorted xs)

theorem filter_sortInsert (k : Nat) (x : Scored) : ∀ l : List Scored,
    (sortInsert compareScore x l).filter (fun a => a.score == k) =
      (x :: l).filter (fun a => a.score == k)
  | [] => rfl
  | y :: ys => by
    unfold sortInsert
    split
    next => rfl
    next hgt =>
      rw [compareScore_le] at hgt
      rw [List.filter_cons, filter_sortInsert k x ys]
      by_cases hx : x.score = k
      · have hyk : (y.score == k) = false := by
          rw [beq_eq_false_iff_ne]; omega
        simp [List.filter_cons, hyk]
      · have hxk : (x.score == k) = false := by
          rw [beq_eq_false_iff_ne]; exact hx
        simp [List.filter_cons, hxk]

theorem filter_sort (k : Nat) : ∀ l : List Scored,
    (sort compareScore l).filter (fun a => a.score == k) = l.filter (fun a => a.score == k)
  | [] => rfl
  | x :: xs => by
    show (sortInsert compareScore x (sort compareScore xs)).filter _ = _
    rw [filter_sortInsert, List.filter_cons, List.filter_cons, filter_sort k xs]

/-- C8: the list returned by `findRelevantSentences` consists of the sentences of the ranked
items; the ranked items are exactly the scored candidates with score above 0 (a
permutation of them), in non-increasing order of score, and for every score value the
candidates having that score keep the order they have in the document. -/
theorem findRelevantSentences_ranking (lc : JSStr → JSStr) (text q : JSStr) :
    findRelevantSentences lc text q = (ranked lc text q).map (fun item => item.sentence) ∧
    (ranked lc text q).Perm ((scored lc text q).filter fun item => item.score > 0) ∧
    (ranked lc text q).Pairwise (fun a b => a.score ≥ b.score) ∧
    ∀ k : Nat, (ranked lc text q).filter (fun a => a.score == k) =
      ((scored lc text q).filter fun item => item.score > 0).filter
        (fun a => a.score == k) :=
  ⟨rfl, sort_perm compareScore _, sort_sorted _, fun k => filter_sort k _⟩

/-! ## Claim C9: the not-found message -/

theorem findRelevantSentences_eq_nil (lc : JSStr → JSStr) (text q : JSStr)
    (h : ∀ item ∈ scored lc text q, item.score = 0) :
    findRelevantSentences lc text q = [] := by
  have hf : ((scored lc text q).filter fun item => item.score > 0) = [] := by
    rw [List.filter_eq_nil_iff]
    intro item hitem
    simp [h item hitem]
  unfold findRelevantSentences ranked
  rw [hf]
  rfl

/-- C9: when no rule of the table fires and no scored sentence candidate has a score above
0, `generateAnswer` returns exactly the not-found message with the original question text
spliced in unchanged. -/
theorem generateAnswer_not_found (lc : JSStr → JSStr) (doc q : JSStr)
    (hrules : ∀ r ∈ rules, r.fires lc doc q = false)
    (hscore : ∀ item ∈ scored lc doc q, item.score = 0) :
    generateAnswer lc doc (.string q) =
      .ok (js "Based on the document analysis, I couldn't find specific information to answer: \"" ++ q ++ js "\". Please refer to the complete policy document for detailed information.") := by
  have hfind : rules.find? (Rule.fires lc doc q) = none := by
    rw [List.find?_eq_none]
    intro r hr
    rw [hrules r hr]
    exact Bool.false_ne_true
  rw [generateAnswer_string, hfind]
  show Except.ok (fallbackAnswer lc doc q) = _
  unfold fallbackAnswer
  rw [findRelevantSentences_eq_nil lc doc q hscore]
  rfl

/-- Witness of C9: the question triggers the cataract rule but the document has no evidence,
and its only long sentence contains none of the keywords. -/
theorem generateAnswer_not_found_witness :
    generateAnswer asciiLower (js "The policy pays for hospital stays in full. See annex.")
        (.string (js "Is  Cataract surgery covered?")) =
      .ok (js "Based on the document analysis, I couldn't find specific information to answer: \"Is  Cataract surgery covered?\". Please refer to the complete policy document for detailed information.") :=
  generateAnswer_not_found asciiLower
    (js "The policy pays for hospital stays in full. See annex.")
    (js "Is  Cataract surgery covered?") (by decide) (by decide)

/-! ## Claim C10: the length filter -/

/-- C10: every sentence returned by `findRelevantSentences` has more than 20 code units after
trimming, and a sentence candidate whose trimmed length is at most 20 is not returned,
neither as it stands nor trimmed, whatever keywords it contains. -/
theorem findRelevantSentences_longer_than_20 (lc : JSStr → JSStr) (text q : JSStr) :
    (∀ s ∈ findRelevantSentences lc text q, 20 < (trim s).length) ∧
    ∀ p ∈ split isSentenceEnd text, (trim p).length ≤ 20 →
      p ∉ findRelevantSentences lc text q ∧ trim p ∉ findRelevantSentences lc text q := by
  have hlong : ∀ s ∈ findRelevantSentences lc text q, 20 < (trim s).length := by
    intro s hs
    obtain ⟨p, _, hlen, _, rfl⟩ := (mem_findRelevantSentences lc text q s).mp hs
    rw [trim_trim]
    exact hlen
  refine ⟨hlong, fun p _ hshort => ⟨fun hin => ?_, fun hin => ?_⟩⟩
  · exact absurd (hlong p hin) (by omega)
  · have := hlong (trim p) hin
    rw [trim_trim] at this
    omega

/-- Witness of C10: the long sentence of the document is returned and has 33 code units,
and the short candidate "Cats purr", which contains the keyword, is not returned. -/
theorem findRelevantSentences_longer_than_20_witness :
    (js "Cats and dogs play together daily" ∈
        findRelevantSentences asciiLower (js "Cats and dogs play together daily. Cats purr.")
          (js "about cats") ∧
      20 < (trim (js "Cats and dogs play together daily")).length) ∧
    (js " Cats purr" ∈ split isSentenceEnd (js "Cats and dogs play together daily. Cats purr.") ∧
      0 < score asciiLower (keywords asciiLower (js "about cats")) (js " Cats purr") ∧
      js " Cats purr" ∉
        findRelevantSentences asciiLower (js "Cats and dogs play together daily. Cats purr.")
          (js "about cats") ∧
      trim (js " Cats purr") ∉
        findRelevantSentences asciiLower (js "Cats and dogs play together daily. Cats purr.")
          (js "about cats")) :=
  have h := findRelevantSentences_longer_than_20 asciiLower
    (js "Cats and dogs play together daily. Cats purr.") (js "about cats")
  ⟨⟨by decide, h.1 _ (by decide)⟩,
    ⟨by decide, by decide, h.2 (js " Cats purr") (by decide) (by decide)⟩⟩

/-! ## Claim C11: the two best sentences -/

theorem dropWhile_trim (s : JSStr) : (trim s).dropWhile isWhiteSpace = trim s := by
  have h := trim_trim s
  have hpre : trim (trim s) <+: (trim s).dropWhile isWhiteSpace := by
    rw [trim_eq (trim s)]; exact List.rdropWhile_prefix isWhiteSpace _
  rw [h] at hpre
  have hsuf : (trim s).dropWhile isWhiteSpace <:+ trim s := List.dropWhile_suffix _
  exact hsuf.eq_of_length_le hpre.length_le

theorem rdropWhile_trim (s : JSStr) : (trim s).rdropWhile isWhiteSpace = trim s := by
  rw [trim_eq, List.rdropWhile_idempotent]

theorem dropWhile_append_of_head (a x : JSStr) (ha : a ≠ [])
    (h : a.dropWhile isWhiteSpace = a) : (a ++ x).dropWhile isWhiteSpace = a ++ x := by
  cases a with
  | nil => exact absurd rfl ha
  | cons c t =>
    have hc : ¬ isWhiteSpace c = true := by
      have := (List.dropWhile_eq_self_iff).mp h (by simp)
      simpa using this
    rw [List.cons_append, List.dropWhile_cons_of_neg hc]

theorem rdropWhile_append_of_last (x b : JSStr) (hb : b ≠ [])
    (h : b.rdropWhile isWhiteSpace = b) : (x ++ b).rdropWhile isWhiteSpace = x ++ b := by
  have hlast : ¬ isWhiteSpace (b.getLast hb) = true := (List.rdropWhile_eq_self_iff).mp h hb
  have hsplit : b = b.dropLast ++ [b.getLast hb] := (List.dropLast_append_getLast hb).symm
  rw [hsplit, ← List.append_assoc, List.rdropWhile_concat_neg _ _ _ hlast]

/-- Joining two trimmed non-empty strings with a separator gives a string that `trim`
leaves unchanged. -/
theorem trim_join_two (a d b : JSStr) (ha : a ≠ []) (hb : b ≠ [])
    (hat : trim a = a) (hbt : trim b = b) : trim (a ++ d ++ b) = a ++ d ++ b := by
  have ha1 : a.dropWhile isWhiteSpace = a := by
    have := dropWhile_trim a; rwa [hat] at this
  have hb1 : b.rdropWhile isWhiteSpace = b := by
    have := rdropWhile_trim b; rwa [hbt] at this
  rw [trim_eq, List.append_assoc, dropWhile_append_of_head a (d ++ b) ha ha1,
    ← List.append_assoc, rdropWhile_append_of_last (a ++ d) b hb hb1]

/-- A returned sentence is non-empty and unchanged by `trim`. -/
theorem findRelevantSentences_trimmed (lc : JSStr → JSStr) (text q s : JSStr)
    (hs : s ∈ findRelevantSentences lc text q) : s ≠ [] ∧ trim s = s := by
  obtain ⟨p, _, hlen, _, rfl⟩ := (mem_findRelevantSentences lc text q s).mp hs
  refine ⟨fun h => ?_, trim_trim p⟩
  rw [h] at hlen
  simp at hlen

/-- C11: when no rule of the table fires and the ranking is non-empty, `generateAnswer`
returns the first ranked sentence alone if it is the only one, and otherwise the first two
ranked sentences (which are trimmed) joined by exactly one space; the rest of the ranking
does not enter the answer. -/
theorem generateAnswer_top_two (lc : JSStr → JSStr) (doc q : JSStr)
    (hrules : ∀ r ∈ rules, r.fires lc doc q = false)
    (hne : findRelevantSentences lc doc q ≠ []) :
    ∃ s1 rest, findRelevantSentences lc doc q = s1 :: rest ∧ trim s1 = s1 ∧
      generateAnswer lc doc (.string q) =
        .ok (match rest with
             | [] => s1
             | s2 :: _ => s1 ++ [32] ++ s2) ∧
      ∀ s2 ∈ rest.head?, trim s2 = s2 := by
  have hfind : rules.find? (Rule.fires lc doc q) = none := by
    rw [List.find?_eq_none]
    intro r hr
    rw [hrules r hr]
    exact Bool.false_ne_true
  have hgen : generateAnswer lc doc (.string q) = .ok (fallbackAnswer lc doc q) := by
    rw [generateAnswer_string, hfind]
  cases hfrs : findRelevantSentences lc doc q with
  | nil => exact absurd hfrs hne
  | cons s1 rest =>
    have h1 := findRelevantSentences_trimmed lc doc q s1 (by rw [hfrs]; exact List.mem_cons_self _ _)
    refine ⟨s1, rest, rfl, h1.2, ?_, ?_⟩
    · rw [hgen, fallbackAnswer, hfrs]
      cases rest with
      | nil =>
        simp only [List.length_singleton, gt_iff_lt, Nat.lt_one_iff, Nat.one_pos, if_true,
          List.take, join]
        rw [h1.2]
      | cons s2 rest2 =>
        have h2 := findRelevantSentences_trimmed lc doc q s2
          (by rw [hfrs]; exact List.mem_cons_of_mem _ (List.mem_cons_self _ _))
        have hpos : (s1 :: s2 :: rest2).length > 0 := by simp
        rw [if_pos hpos]
        show Except.ok (trim (s1 ++ js " " ++ s2)) = _
        rw [show js " " = [32] from rfl, trim_join_two s1 [32] s2 h1.1 h2.1 h1.2 h2.2]
    · intro s2 hs2
      cases rest with
      | nil => simp at hs2
      | cons s2b rest2 =>
        simp only [List.head?_cons, Option.mem_def, Option.some.injEq] at hs2
        subst hs2
        exact (findRelevantSentences_trimmed lc doc q s2b
          (by rw [hfrs]; exact List.mem_cons_of_mem _ (List.mem_cons_self _ _))).2

/-- Witness of C11: three sentences qualify and the answer is made of the two best. -/
theorem generateAnswer_top_two_witness :
    (∃ s1 rest,
      findRelevantSentences asciiLower
        (js "Cats sleep all day on the warm sofa. Cats and dogs play together daily. Dogs bark at cats in the yard loudly.")
        (js "cats dogs") = s1 :: rest ∧ trim s1 = s1 ∧
      generateAnswer asciiLower
        (js "Cats sleep all day on the warm sofa. Cats and dogs play together daily. Dogs bark at cats in the yard loudly.")
        (.string (js "cats dogs")) =
        .ok (match rest with
             | [] => s1
             | s2 :: _ => s1 ++ [32] ++ s2) ∧
      ∀ s2 ∈ rest.head?, trim s2 = s2) ∧
    generateAnswer asciiLower
        (js "Cats sleep all day on the warm sofa. Cats and dogs play together daily. Dogs bark at cats in the yard loudly.")
        (.string (js "cats dogs")) =
      .ok (js "Cats and dogs play together daily Dogs bark at cats in the yard loudly") :=
  ⟨generateAnswer_top_two asciiLower
      (js "Cats sleep all day on the warm sofa. Cats and dogs play together daily. Dogs bark at cats in the yard loudly.")
      (js "cats dogs") (by decide) (by decide),
    by rfl⟩

/-! ## Claim C12: the fallback comes after all rules -/

theorem find_none_iff (lc : JSStr → JSStr) (doc q : JSStr) :
    rules.find? (Rule.fires lc doc q) = none ↔ ∀ r ∈ rules, r.fires lc doc q = false := by
  rw [List.find?_eq_none]
  constructor
  · intro h r hr
    exact Bool.eq_false_iff.mpr (h r hr)
  · intro h r hr
    rw [h r hr]
    exact Bool.false_ne_true

/-- C12: `generateAnswer` returns the fallback answer (ranked sentences or not-found
message) exactly when no rule of the table fires; and when the first rule that fires is
`r2`, its canned answer is returned and not the fallback, also if some rule has its
trigger holding on the question while its evidence fails on the document. -/
theorem generateAnswer_fallback_after_rules (lc : JSStr → JSStr) (doc q : JSStr) :
    (generateAnswer lc doc (.string q) = .ok (fallbackAnswer lc doc q) ↔
      ∀ r ∈ rules, r.fires lc doc q = false) ∧
    ∀ r1 ∈ rules, r1.trigger (lc q) = true → r1.evidence (lc doc) = false →
      ∀ r2, rules.find? (Rule.fires lc doc q) = some r2 →
        generateAnswer lc doc (.string q) = .ok r2.answer ∧
        generateAnswer lc doc (.string q) ≠ .ok (fallbackAnswer lc doc q) := by
  have hsome : ∀ r2, rules.find? (Rule.fires lc doc q) = some r2 →
      generateAnswer lc doc (.string q) = .ok r2.answer ∧
      generateAnswer lc doc (.string q) ≠ .ok (fallbackAnswer lc doc q) := by
    intro r2 hfind
    have hgen : generateAnswer lc doc (.string q) = .ok r2.answer := by
      rw [generateAnswer_string, hfind]
    refine ⟨hgen, fun h => ?_⟩
    rw [hgen] at h
    exact fallbackAnswer_ne_rule lc doc q r2 (List.mem_of_find?_eq_some hfind)
      (Except.ok.inj h).symm
  refine ⟨⟨fun h => ?_, fun h => ?_⟩, fun _ _ _ _ r2 hfind => hsome r2 hfind⟩
  · rw [← find_none_iff]
    cases hfind : rules.find? (Rule.fires lc doc q) with
    | none => rfl
    | some r2 => exact absurd h (hsome r2 hfind).2
  · rw [generateAnswer_string, (find_none_iff lc doc q).mpr h]

/-- Witness of C12: the question triggers the grace-period rule, whose evidence fails on the
document, and the maternity rule, whose evidence holds: the maternity answer is returned.
On a document without the maternity evidence the fallback answers. -/
theorem generateAnswer_fallback_after_rules_witness :
    (generateAnswer asciiLower
        (js "The policy has a grace period. Maternity cover starts after 24 months.")
        (.string (js "grace period for the maternity premium")) = .ok maternityAnswer ∧
      generateAnswer asciiLower
        (js "The policy has a grace period. Maternity cover starts after 24 months.")
        (.string (js "grace period for the maternity premium")) ≠
        .ok (fallbackAnswer asciiLower
          (js "The policy has a grace period. Maternity cover starts after 24 months.")
          (js "grace period for the maternity premium"))) ∧
    generateAnswer asciiLower (js "The policy has a grace period of some length.")
        (.string (js "grace period for the maternity premium")) =
      .ok (fallbackAnswer asciiLower (js "The policy has a grace period of some length.")
        (js "grace period for the maternity premium")) :=
  ⟨(generateAnswer_fallback_after_rules asciiLower
      (js "The policy has a grace period. Maternity cover starts after 24 months.")
      (js "grace period for the maternity premium")).2
      (Rule.mk (fun q => includes q (js "grace period") && includes q (js "premium"))
        (fun t => regexMatch graceRegex1 t || regexMatch graceRegex2 t) graceAnswer)
      (by simp [rules]) (by decide) (by decide)
      (Rule.mk (fun q => includes q (js "maternity"))
        (fun t => includes t (js "maternity") && includes t (js "24") &&
          includes t (js "month")) maternityAnswer)
      (by rfl),
    (generateAnswer_fallback_after_rules asciiLower
      (js "The policy has a grace period of some length.")
      (js "grace period for the maternity premium")).1.mpr (by decide)⟩

/-! ## Claim C13: the length check -/

theorem answerLoop_error (lc : JSStr → JSStr) (doc : JSStr) :
    ∀ (qs : List JSValue) (acc : List JSStr) (e : JSError),
      answerLoop lc doc qs acc = .error e → e = .typeError
  | [], acc, e, h => by simp [answerLoop] at h
  | q :: qs, acc, e, h => by
    unfold answerLoop at h
    cases hg : generateAnswer lc doc q with
    | ok a =>
      rw [hg] at h
      exact answerLoop_error lc doc qs _ e h
    | error e2 =>
      rw [hg] at h
      cases hq : q.stringConversionThrows with
      | true =>
        simp only [hq, if_true] at h
        exact (Except.error.inj h).symm
      | false =>
        simp only [hq, Bool.false_eq_true, if_false] at h
        exact answerLoop_error lc doc qs _ e h

/-- The length check: when the extracted text is empty or shorter than 50 code units,
`processHackRxRequest` fails with the document error whatever the questions are (none is
processed, so not even an unprintable question changes the error); with a text of at least
50 code units it never fails with that error, and it returns one answer per question for
every list of question strings and, more generally, for every list of JSON values none of
which has a throwing string conversion. -/
theorem processHackRxRequest_length_check (lc : JSStr → JSStr) (doc : JSStr) :
    (doc = [] ∨ doc.length < 50 → ∀ qs : List JSValue,
      processHackRxRequest lc doc qs =
        .error (.error (js "Document text extraction failed or document is too short"))) ∧
    (50 ≤ doc.length →
      (∀ qs : List JSValue, processHackRxRequest lc doc qs ≠
        .error (.error (js "Document text extraction failed or document is too short"))) ∧
      (∀ qs : List JSStr, ∃ answers,
        processHackRxRequest lc doc (qs.map JSValue.string) = .ok answers ∧
        answers.length = qs.length) ∧
      ∀ qs : List JSValue, (∀ q ∈ qs, q.stringConversionThrows = false) → ∃ answers,
        processHackRxRequest lc doc qs = .ok answers ∧ answers.length = qs.length) := by
  refine ⟨fun hshort qs => ?_, fun hlen => ⟨fun qs h => ?_, fun qs => ?_, fun qs hconv => ?_⟩⟩
  · have hlt : doc.length < 50 := by
      rcases hshort with h | h
      · rw [h]; decide
      · exact h
    simp [processHackRxRequest, hlt]
  · rw [processHackRxRequest_ok lc doc qs hlen] at h
    have := answerLoop_error lc doc qs [] _ h
    exact absurd this (by decide)
  · have hconv : ∀ q ∈ qs.map JSValue.string, q.stringConversionThrows = false := by
      intro q hq
      obtain ⟨t, _, rfl⟩ := List.mem_map.mp hq
      exact stringConversionThrows_string t
    refine ⟨(qs.map JSValue.string).map (questionAnswer lc doc), ?_, ?_⟩
    · rw [processHackRxRequest_ok lc doc _ hlen, answerLoop_ok lc doc _ _ hconv,
        List.nil_append]
    · rw [List.length_map, List.length_map]
  · refine ⟨qs.map (questionAnswer lc doc), ?_, List.length_map _ _⟩
    rw [processHackRxRequest_ok lc doc qs hlen, answerLoop_ok lc doc qs [] hconv,
      List.nil_append]

/-- Example of the length check: a text of 17 code units fails even before the unprintable
question is looked at, and a text of 53 code units answers both question strings. -/
theorem processHackRxRequest_length_check_witness :
    processHackRxRequest asciiLower (js "Cataract surgery.")
        [.string (js "Is cataract covered?"), .object [(js "toString", .number 1)]] =
      .error (.error (js "Document text extraction failed or document is too short")) ∧
    ∃ answers,
      processHackRxRequest asciiLower
        (js "Cataract surgery is covered after two years of cover.")
        ([js "Is cataract covered?", js "zebra"].map JSValue.string) = .ok answers ∧
      answers.length = 2 :=
  ⟨(processHackRxRequest_length_check asciiLower (js "Cataract surgery.")).1
      (Or.inr (by decide)) _,
    ((processHackRxRequest_length_check asciiLower
      (js "Cataract surgery is covered after two years of cover.")).2 (by decide)).2.1
      [js "Is cataract covered?", js "zebra"]⟩

/-- C13, failing input: with a text of 53 code units the document error is not raised, but
the request still produces no answer for any of its two questions: the log line of the
`catch` branch throws on the second one and `processHackRxRequest` rethrows. With a text of
17 code units the same questions fail with the document error, as the guard requires. -/
theorem processHackRxRequest_long_text_no_answers :
    processHackRxRequest asciiLower (js "Cataract surgery.")
        [.string (js "Is cataract covered?"), .object [(js "toString", .number 1)]] =
      .error (.error (js "Document text extraction failed or document is too short")) ∧
    ¬ ((js "Cataract surgery is covered after two years of cover.") = [] ∨
      (js "Cataract surgery is covered after two years of cover.").length < 50) ∧
    processHackRxRequest asciiLower (js "Cataract surgery is covered after two years of cover.")
        [.string (js "Is cataract covered?"), .object [(js "toString", .number 1)]] =
      .error .typeError ∧
    ¬ ∃ answers : List JSStr,
      processHackRxRequest asciiLower
        (js "Cataract surgery is covered after two years of cover.")
        [.string (js "Is cataract covered?"), .object [(js "toString", .number 1)]] =
      .ok answers ∧ answers.length = 2 := by
  refine ⟨rfl, by decide, rfl, ?_⟩
  rintro ⟨answers, h, _⟩
  have herr : processHackRxRequest asciiLower
      (js "Cataract surgery is covered after two years of cover.")
      [.string (js "Is cataract covered?"), .object [(js "toString", .number 1)]] =
      .error .typeError := rfl
  rw [herr] at h
  cases h

/-! ## Substrings -/

theorem startsWith_iff : ∀ (s k : JSStr), startsWith s k = true ↔ k <+: s
  | s, [] => by simp [startsWith]
  | [], d :: k => by simp [startsWith]
  | c :: s, d :: k => by
    simp only [startsWith, Bool.and_eq_true, beq_iff_eq, List.cons_prefix_cons,
      startsWith_iff s k]
    constructor
    · rintro ⟨h1, h2⟩; exact ⟨h1.symm, h2⟩
    · rintro ⟨h1, h2⟩; exact ⟨h1.symm, h2⟩

theorem includes_iff : ∀ (s k : JSStr), includes s k = true ↔ k <:+: s
  | [], k => by
    rw [includes, startsWith_iff, List.prefix_nil, List.infix_nil]
  | c :: s, k => by
    rw [includes, Bool.or_eq_true, startsWith_iff, includes_iff s k, List.infix_cons_iff]

theorem splitAux_contiguous (sep : Nat → Bool) :
    ∀ (s : List Nat) (b : Bool) (cur : List Nat),
      ∀ p ∈ splitAux sep b cur s, p <:+: cur.reverse ++ s := by
  intro s
  induction s with
  | nil =>
    intro b cur p hp
    simp only [splitAux, List.mem_singleton] at hp
    subst hp
    rw [List.append_nil]
  | cons a s ih =>
    intro b cur p hp
    have htail : ∀ p ∈ splitAux sep true [] s, p <:+: cur.reverse ++ a :: s := by
      intro p hp
      have h := ih true [] p hp
      rw [List.reverse_nil, List.nil_append] at h
      exact h.trans ((List.suffix_cons a s).isInfix.trans
        (List.suffix_append cur.reverse (a :: s)).isInfix)
    cases hsep : sep a
    · simp only [splitAux, hsep] at hp
      have h := ih false (a :: cur) p hp
      rwa [List.reverse_cons, List.append_assoc, List.singleton_append] at h
    · cases b
      · simp only [splitAux, hsep, if_true] at hp
        rcases List.mem_cons.mp hp with h | h
        · subst h
          exact (List.prefix_append _ _).isInfix
        · exact htail p h
      · simp only [splitAux, hsep, if_true] at hp
        exact htail p hp

theorem split_contiguous (sep : Nat → Bool) (s : JSStr) : ∀ p ∈ split sep s, p <:+: s := by
  intro p hp
  have h := splitAux_contiguous sep s false [] p hp
  rwa [List.reverse_nil, List.nil_append] at h

theorem trim_contiguous (s : JSStr) : trim s <:+: s := by
  rw [trim_eq]
  exact (List.rdropWhile_prefix isWhiteSpace _).isInfix.trans
    (List.dropWhile_suffix isWhiteSpace).isInfix

/-! ## Claim C16: the answer quotes the document -/

/-- C16: every sentence returned by `findRelevantSentences` is a contiguous run of code units
of the original document text, contains none of `.`, `!`, `?`, is non-empty and unchanged by
`trim`, so that neither its first nor its last code unit is white space; and a fallback
answer made of ranked sentences consists of such runs of the document. -/
theorem findRelevantSentences_verbatim (lc : JSStr → JSStr) (text q : JSStr) :
    (∀ s ∈ findRelevantSentences lc text q,
      s <:+: text ∧ (∀ c ∈ s, isSentenceEnd c = false) ∧ s ≠ [] ∧ trim s = s ∧
      (∀ c, s.head? = some c → isWhiteSpace c = false) ∧
      (∀ c, s.getLast? = some c → isWhiteSpace c = false)) ∧
    ((∀ r ∈ rules, r.fires lc text q = false) → findRelevantSentences lc text q ≠ [] →
      generateAnswer lc text (.string q) =
        .ok (trim (join (js " ") ((findRelevantSentences lc text q).take 2))) ∧
      ∀ s ∈ (findRelevantSentences lc text q).take 2, s <:+: text) := by
  have hcont : ∀ s ∈ findRelevantSentences lc text q, s <:+: text := by
    intro s hs
    obtain ⟨p, hp, _, _, rfl⟩ := (mem_findRelevantSentences lc text q s).mp hs
    exact (trim_contiguous p).trans (split_contiguous isSentenceEnd text p hp)
  refine ⟨fun s hs => ?_, fun hrules hne => ⟨?_, fun s hs => hcont s (List.mem_of_mem_take hs)⟩⟩
  · have ht := findRelevantSentences_trimmed lc text q s hs
    refine ⟨hcont s hs, findRelevantSentences_no_period lc text q s hs, ht.1, ht.2, ?_, ?_⟩
    · intro c hc
      have hd := dropWhile_trim s
      rw [ht.2] at hd
      obtain ⟨t, rfl⟩ := List.head?_eq_some_iff.mp hc
      have := (List.dropWhile_eq_self_iff).mp hd (by simp)
      simpa using this
    · intro c hc
      have hd := rdropWhile_trim s
      rw [ht.2] at hd
      have := (List.rdropWhile_eq_self_iff).mp hd ht.1
      rw [List.getLast?_eq_getLast s ht.1] at hc
      rw [Option.some.inj hc] at this
      simpa using this
  · rw [generateAnswer_string, (find_none_iff lc text q).mpr hrules]
    show Except.ok (fallbackAnswer lc text q) = _
    rw [fallbackAnswer, if_pos (List.length_pos.mpr hne)]

/-- Witness of C16: the ranked sentence keeps the capitals of the document and loses the
surrounding blanks. -/
theorem findRelevantSentences_verbatim_witness :
    (js "Cats AND Dogs play together daily" <:+: js "Intro!  Cats AND Dogs play together daily . x" ∧
      trim (js "Cats AND Dogs play together daily") = js "Cats AND Dogs play together daily") ∧
    generateAnswer asciiLower (js "Intro!  Cats AND Dogs play together daily . x")
        (.string (js "dogs")) =
      .ok (trim (join (js " ") ((findRelevantSentences asciiLower
        (js "Intro!  Cats AND Dogs play together daily . x") (js "dogs")).take 2))) :=
  have h := findRelevantSentences_verbatim asciiLower
    (js "Intro!  Cats AND Dogs play together daily . x") (js "dogs")
  have h1 := h.1 (js "Cats AND Dogs play together daily") (by decide)
  ⟨⟨h1.1, h1.2.2.2.1⟩, (h.2 (by decide) (by decide)).1⟩

/-! ## Claim C15: keywords with sentence punctuation -/

theorem asciiLower_sentenceEnd (s : JSStr) (hs : ∀ c ∈ s, isSentenceEnd c = false) :
    ∀ c ∈ asciiLower s, isSentenceEnd c = false := by
  intro c hc
  obtain ⟨a, ha, rfl⟩ := List.mem_map.mp hc
  have h := hs a ha
  unfold asciiLowerUnit
  split
  next hr =>
    simp only [isSentenceEnd, Bool.or_eq_false_iff, beq_eq_false_iff_ne, ne_eq]
    omega
  next => exact h

theorem includes_sentenceEnd_false (lc : JSStr → JSStr)
    (hlc : ∀ s : JSStr, (∀ c ∈ s, isSentenceEnd c = false) →
      ∀ c ∈ lc s, isSentenceEnd c = false)
    (text k : JSStr) (hk : ∃ c ∈ k, isSentenceEnd c = true) :
    ∀ p ∈ split isSentenceEnd text, includes (lc p) k = false := by
  intro p hp
  obtain ⟨c, hck, hc⟩ := hk
  rw [Bool.eq_false_iff]
  intro hinc
  have hmem : c ∈ lc p := ((includes_iff (lc p) k).mp hinc).subset hck
  have := hlc p (split_no_sep isSentenceEnd text p hp) c hmem
  rw [this] at hc
  exact Bool.false_ne_true hc

/-- C15: provided lowercasing introduces none of `.`, `!`, `?` into a string free of them
(as `toLowerCase` does), a keyword containing one of these characters occurs in no
lowercased sentence candidate; the score of every candidate is the score computed without
such keywords; and a question all of whose keywords contain such a character ranks no
sentence. -/
theorem keyword_with_sentence_end_never_scores (lc : JSStr → JSStr)
    (hlc : ∀ s : JSStr, (∀ c ∈ s, isSentenceEnd c = false) →
      ∀ c ∈ lc s, isSentenceEnd c = false)
    (text q : JSStr) :
    (∀ k ∈ keywords lc q, (∃ c ∈ k, isSentenceEnd c = true) →
      ∀ p ∈ split isSentenceEnd text, includes (lc p) k = false) ∧
    (∀ p ∈ split isSentenceEnd text,
      score lc (keywords lc q) p =
        score lc ((keywords lc q).filter fun k => !k.any isSentenceEnd) p) ∧
    ((∀ k ∈ keywords lc q, ∃ c ∈ k, isSentenceEnd c = true) →
      findRelevantSentences lc text q = []) := by
  refine ⟨fun k _ hk => includes_sentenceEnd_false lc hlc text k hk, fun p hp => ?_,
    fun hall => ?_⟩
  · rw [score_eq_countP, score_eq_countP, List.countP_filter]
    apply List.countP_congr
    intro k _
    simp only [Bool.and_eq_true, Bool.not_eq_true', List.any_eq_false]
    constructor
    · intro hinc
      refine ⟨hinc, fun c hc => ?_⟩
      intro hend
      have := includes_sentenceEnd_false lc hlc text k ⟨c, hc, hend⟩ p hp
      rw [this] at hinc
      exact Bool.false_ne_true hinc
    · exact fun h => h.1
  · apply findRelevantSentences_eq_nil
    intro item hitem
    unfold scored sentences at hitem
    obtain ⟨p, hp, rfl⟩ := List.mem_map.mp hitem
    have hp2 : p ∈ split isSentenceEnd text := (List.mem_filter.mp hp).1
    show score lc (keywords lc q) p = 0
    rw [score_eq_countP, List.countP_eq_zero]
    intro k hk
    rw [includes_sentenceEnd_false lc hlc text k (hall k hk) p hp2]
    exact Bool.false_ne_true

/-- Witness of C15: the keyword "play?" of the question does not occur in the sentence that
contains "play", so the question "dogs play?" scores 1 and the question "play?" ranks
nothing. -/
theorem keyword_with_sentence_end_never_scores_witness :
    includes (asciiLower (js "Cats and dogs play together daily")) (js "play?") = false ∧
    score asciiLower (keywords asciiLower (js "Dogs play?"))
        (js "Cats and dogs play together daily") = 1 ∧
    findRelevantSentences asciiLower (js "Cats and dogs play together daily. x")
        (js "play?") = [] :=
  have h := keyword_with_sentence_end_never_scores asciiLower asciiLower_sentenceEnd
    (js "Cats and dogs play together daily. x")
  ⟨(h (js "Dogs play?")).1 (js "play?") (by decide) ⟨63, by decide, by decide⟩
      (js "Cats and dogs play together daily") (by decide),
    ((h (js "Dogs play?")).2.1 (js "Cats and dogs play together daily") (by decide)).trans
      (by decide),
    (h (js "play?")).2.2 (by decide)⟩

/-! ## Claim C14: the bearer token -/

theorem splitOnAux_head (d : Nat) : ∀ (s cur : List Nat),
    (splitOnAux d cur s).head? = some (cur.reverse ++ s.takeWhile fun c => !decide (c = d))
  | [], cur => by simp [splitOnAux]
  | c :: cs, cur => by
    by_cases h : c = d
    · simp [splitOnAux, h]
    · simp [splitOnAux, h, splitOnAux_head d cs (c :: cur)]

/-- The token that the handler extracts from a header starting with `Bearer ` is the text
between the first space and the next one (or the end of the header). -/
theorem bearer_token_shape (header token : JSStr)
    (hstart : startsWith header (js "Bearer ") = true)
    (htoken : (splitOn 32 header)[1]? = some token) :
    ∃ rest, header = js "Bearer " ++ token ++ rest ∧ (∀ c ∈ token, c ≠ 32) ∧
      (rest = [] ∨ rest.head? = some 32) := by
  obtain ⟨t, rfl⟩ := (startsWith_iff header (js "Bearer ")).mp hstart
  have hlit : js "Bearer " = [66, 101, 97, 114, 101, 114, 32] := by decide
  rw [hlit] at htoken ⊢
  have hsplit : splitOn 32 ([66, 101, 97, 114, 101, 114, 32] ++ t) =
      [66, 101, 97, 114, 101, 114] :: splitOnAux 32 [] t := by
    simp [splitOn, splitOnAux]
  rw [hsplit, List.getElem?_cons_succ, ← List.head?_eq_getElem?, splitOnAux_head,
    List.reverse_nil, List.nil_append] at htoken
  have htok := Option.some.inj htoken
  refine ⟨t.dropWhile fun c => !decide (c = 32), ?_, ?_, ?_⟩
  · rw [List.append_assoc, ← htok, List.takeWhile_append_dropWhile]
  · intro c hc
    rw [← htok] at hc
    simpa using List.mem_takeWhile_imp hc
  · have h := List.head?_dropWhile_not (fun c => !decide (c = 32)) t
    cases hrest : t.dropWhile fun c => !decide (c = 32) with
    | nil => exact Or.inl rfl
    | cons x xs =>
      right
      rw [hrest] at h
      simp only [List.head?_cons, Bool.not_eq_false', decide_eq_true_eq] at h
      rw [List.head?_cons, h]

theorem handler_authorized (lc : JSStr → JSStr) (tok : Option JSStr)
    (extractText : JSValue → Except JSError JSStr) (event : Event)
    (hpost : event.httpMethod = js "POST")
    (h : (handler lc tok extractText event).statusCode = 200 ∨
      (handler lc tok extractText event).invoked = true) :
    ∃ header expected, authHeader event = some header ∧
      startsWith header (js "Bearer ") = true ∧ tok = some expected ∧ expected ≠ [] ∧
      (splitOn 32 header)[1]? = some expected := by
  have hopt : ¬ event.httpMethod = js "OPTIONS" := by rw [hpost]; decide
  unfold handler at h
  rw [if_neg hopt, if_neg (not_not.mpr hpost)] at h
  cases hbody : event.body with
  | error e => rw [hbody] at h; simp at h
  | ok body =>
    rw [hbody] at h
    cases hauth : authHeader event with
    | none => rw [hauth] at h; simp at h
    | some header =>
      rw [hauth] at h
      simp only at h
      split at h
      · simp at h
      · next hhead =>
        cases tok with
        | none => simp at h
        | some expected =>
          simp only at h
          split at h
          · simp at h
          · next htok =>
            refine ⟨header, expected, rfl, ?_, rfl, ?_, ?_⟩
            · exact (by simpa using hhead : _ ∧ _).2
            · intro he; apply htok; left; rw [he]; rfl
            · by_contra hne; exact htok (Or.inr hne)

/-- C14: a POST request is answered with status 200, and `processHackRxRequest` is called,
only if the authorization header starts with `Bearer `, `BEARER_TOKEN` is set and non-empty
and the token of the header, the text between its first and its second space, equals
`BEARER_TOKEN`; with `BEARER_TOKEN` unset or empty no POST request gets status 200 or
reaches `processHackRxRequest`. -/
theorem handler_requires_bearer_token (lc : JSStr → JSStr) (tok : Option JSStr)
    (extractText : JSValue → Except JSError JSStr) (event : Event)
    (hpost : event.httpMethod = js "POST") :
    ((handler lc tok extractText event).statusCode = 200 ∨
        (handler lc tok extractText event).invoked = true →
      ∃ header expected rest, authHeader event = some header ∧
        startsWith header (js "Bearer ") = true ∧ tok = some expected ∧ expected ≠ [] ∧
        (splitOn 32 header)[1]? = some expected ∧
        header = js "Bearer " ++ expected ++ rest ∧ (∀ c ∈ expected, c ≠ 32) ∧
        (rest = [] ∨ rest.head? = some 32)) ∧
    (tok = none ∨ tok = some [] →
      (handler lc tok extractText event).statusCode ≠ 200 ∧
      (handler lc tok extractText event).invoked = false) := by
  refine ⟨fun h => ?_, fun htok => ?_⟩
  · obtain ⟨header, expected, h1, h2, h3, h4, h5⟩ :=
      handler_authorized lc tok extractText event hpost h
    obtain ⟨rest, h6, h7, h8⟩ := bearer_token_shape header expected h2 h5
    exact ⟨header, expected, rest, h1, h2, h3, h4, h5, h6, h7, h8⟩
  · have hno : ¬ ((handler lc tok extractText event).statusCode = 200 ∨
        (handler lc tok extractText event).invoked = true) := by
      intro h
      obtain ⟨_, expected, _, _, h3, h4, _⟩ :=
        handler_authorized lc tok extractText event hpost h
      rcases htok with ht | ht
      · rw [ht] at h3; exact Option.noConfusion h3
      · rw [ht] at h3; exact h4 (Option.some.inj h3).symm
    refine ⟨fun h => hno (Or.inl h), ?_⟩
    cases hinv : (handler lc tok extractText event).invoked with
    | false => rfl
    | true => exact absurd (Or.inr hinv) hno

/-- Witness of C14: with the token `s3cret` configured, the request carrying
`Bearer s3cret` is answered with status 200, and the same request is refused when no token
is configured. -/
theorem handler_requires_bearer_token_witness :
    ((handler asciiLower (some (js "s3cret"))
        (fun _ => .ok (js "Cataract surgery is covered after two years of cover."))
        (Event.mk (js "POST")
          (.ok (.object [(js "documents", .string (js "https://example.org/policy.pdf")),
            (js "questions", .array [.string (js "Is cataract covered?")])]))
          (some (js "Bearer s3cret extra")) none)).statusCode = 200 ∧
      ∃ header expected rest,
        authHeader (Event.mk (js "POST")
          (.ok (.object [(js "documents", .string (js "https://example.org/policy.pdf")),
            (js "questions", .array [.string (js "Is cataract covered?")])]))
          (some (js "Bearer s3cret extra")) none) = some header ∧
        startsWith header (js "Bearer ") = true ∧
        some (js "s3cret") = some expected ∧ expected ≠ [] ∧
        (splitOn 32 header)[1]? = some expected ∧
        header = js "Bearer " ++ expected ++ rest ∧ (∀ c ∈ expected, c ≠ 32) ∧
        (rest = [] ∨ rest.head? = some 32)) ∧
    ((handler asciiLower none
        (fun _ => .ok (js "Cataract surgery is covered after two years of cover."))
        (Event.mk (js "POST")
          (.ok (.object [(js "documents", .string (js "https://example.org/policy.pdf")),
            (js "questions", .array [.string (js "Is cataract covered?")])]))
          (some (js "Bearer s3cret extra")) none)).statusCode ≠ 200 ∧
      (handler asciiLower none
        (fun _ => .ok (js "Cataract surgery is covered after two years of cover."))
        (Event.mk (js "POST")
          (.ok (.object [(js "documents", .string (js "https://example.org/policy.pdf")),
            (js "questions", .array [.string (js "Is cataract covered?")])]))
          (some (js "Bearer s3cret extra")) none)).invoked = false) :=
  ⟨⟨by decide,
      (handler_requires_bearer_token asciiLower (some (js "s3cret"))
        (fun _ => .ok (js "Cataract surgery is covered after two years of cover."))
        (Event.mk (js "POST")
          (.ok (.object [(js "documents", .string (js "https://example.org/policy.pdf")),
            (js "questions", .array [.string (js "Is cataract covered?")])]))
          (some (js "Bearer s3cret extra")) none) (by decide)).1 (Or.inl (by decide))⟩,
    (handler_requires_bearer_token asciiLower none
        (fun _ => .ok (js "Cataract surgery is covered after two years of cover."))
        (Event.mk (js "POST")
          (.ok (.object [(js "documents", .string (js "https://example.org/policy.pdf")),
            (js "questions", .array [.string (js "Is cataract covered?")])]))
          (some (js "Bearer s3cret extra")) none) (by decide)).2 (Or.inl rfl)⟩

/-! ## Claim C17: the grace-period evidence lies within one sentence -/

theorem prefix_of_append_cons (m a b : List Nat) (c : Nat) (h : m <+: a ++ c :: b)
    (hc : c ∉ m) : m <+: a := by
  rcases List.prefix_or_prefix_of_prefix h (List.prefix_append a (c :: b)) with h1 | h1
  · exact h1
  · obtain ⟨r, rfl⟩ := h1
    have hr : r <+: c :: b := (List.prefix_append_right_inj a).mp h
    cases r with
    | nil => rw [List.append_nil]
    | cons x xs =>
      have hx : x = c := (List.cons_prefix_cons.mp hr).1
      exact absurd (by rw [← hx]; simp) hc

theorem infix_of_append_cons (m : List Nat) (c : Nat) (hc : c ∉ m) :
    ∀ (a b : List Nat), m <:+: a ++ c :: b → m <:+: a ∨ m <:+: b
  | [], b, h => by
    rw [List.nil_append, List.infix_cons_iff] at h
    rcases h with h | h
    · exact Or.inl (prefix_of_append_cons m [] b c h hc).isInfix
    · exact Or.inr h
  | x :: a, b, h => by
    rw [List.cons_append, List.infix_cons_iff] at h
    rcases h with h | h
    · exact Or.inl (prefix_of_append_cons m (x :: a) b c h hc).isInfix
    · rcases infix_of_append_cons m c hc a b h with h1 | h1
      · exact Or.inl (h1.trans (List.suffix_cons x a).isInfix)
      · exact Or.inr h1

theorem splitOnAux_segment (d : Nat) (m : List Nat) (hm : d ∉ m) :
    ∀ (s cur : List Nat), m <:+: cur.reverse ++ s → ∃ seg ∈ splitOnAux d cur s, m <:+: seg
  | [], cur, h => by
    rw [List.append_nil] at h
    exact ⟨cur.reverse, by simp [splitOnAux], h⟩
  | c :: cs, cur, h => by
    by_cases hcd : c = d
    · subst hcd
      rcases infix_of_append_cons m c hm cur.reverse cs h with h1 | h1
      · exact ⟨cur.reverse, by simp [splitOnAux], h1⟩
      · obtain ⟨seg, hseg, hin⟩ := splitOnAux_segment c m hm cs [] (by simpa using h1)
        exact ⟨seg, by simp [splitOnAux, hseg], hin⟩
    · obtain ⟨seg, hseg, hin⟩ := splitOnAux_segment d m hm cs (c :: cur) (by simpa using h)
      exact ⟨seg, by simpa [splitOnAux, hcd] using hseg, hin⟩

/-- A run of the text without `.` lies within one period-free segment. -/
theorem infix_periodFreeSegment (s m : JSStr) (hm : 46 ∉ m) (h : m <:+: s) :
    ∃ seg ∈ periodFreeSegments s, m <:+: seg :=
  splitOnAux_segment 46 m hm s [] (by simpa using h)

theorem canonicalize_inj (d c : Nat) (hd : ¬ (65 ≤ d ∧ d ≤ 90)) (hc : ¬ (65 ≤ c ∧ c ≤ 90))
    (h : canonicalize d = canonicalize c) : d = c := by
  unfold canonicalize at h
  split at h <;> split at h <;> omega

theorem litAt_exact : ∀ (w t : JSStr), (∀ d ∈ w, ¬ (65 ≤ d ∧ d ≤ 90)) →
    (∀ c ∈ t, ¬ (65 ≤ c ∧ c ≤ 90)) → litAt w t = true → w <+: t
  | [], t, _, _, _ => List.nil_prefix
  | d :: w, [], _, _, h => by simp [litAt] at h
  | d :: w, c :: t, hw, ht, h => by
    simp only [litAt, Bool.and_eq_true, beq_iff_eq] at h
    have hdc : d = c := canonicalize_inj d c (hw d (List.mem_cons_self _ _))
      (ht c (List.mem_cons_self _ _)) h.1
    rw [hdc, List.prefix_cons_inj]
    exact litAt_exact w t (fun x hx => hw x (List.mem_cons_of_mem _ hx))
      (fun x hx => ht x (List.mem_cons_of_mem _ hx)) h.2

/-- A successful anchored match on a text without ASCII capitals consumes a start of the
text that contains no `.` and in which an alternative of every literal piece occurs. -/
theorem matchHere_run : ∀ (ps : List Piece) (t : JSStr),
    (∀ ws, Piece.lits ws ∈ ps → ∀ w ∈ ws, ∀ d ∈ w, d ≠ 46 ∧ ¬ (65 ≤ d ∧ d ≤ 90)) →
    (∀ c ∈ t, ¬ (65 ≤ c ∧ c ≤ 90)) → matchHere ps t = true →
    ∃ m, m <+: t ∧ (∀ c ∈ m, c ≠ 46) ∧ ∀ ws, Piece.lits ws ∈ ps → ∃ w ∈ ws, w <:+: m
  | [], t, _, _, _ => by
    refine ⟨[], List.nil_prefix, ?_, ?_⟩
    · intro c hc
      cases hc
    · intro ws hws
      cases hws
  | .lits ws :: ps, t, hpat, ht, h => by
    simp only [matchHere, List.any_eq_true, Bool.and_eq_true] at h
    obtain ⟨w, hw, hlit, hrest⟩ := h
    have hwpat := hpat ws (List.mem_cons_self _ _) w hw
    obtain ⟨r, rfl⟩ := litAt_exact w t (fun d hd => (hwpat d hd).2) ht hlit
    rw [List.drop_left] at hrest
    obtain ⟨m, hm1, hm2, hm3⟩ := matchHere_run ps r
      (fun ws2 h2 => hpat ws2 (List.mem_cons_of_mem _ h2))
      (fun c hc => ht c (List.mem_append_right _ hc)) hrest
    refine ⟨w ++ m, (List.prefix_append_right_inj w).mpr hm1, ?_, ?_⟩
    · intro c hc
      rcases List.mem_append.mp hc with hc | hc
      · exact (hwpat c hc).1
      · exact hm2 c hc
    · intro ws2 h2
      rcases List.mem_cons.mp h2 with h2 | h2
      · have hws : ws2 = ws := Piece.lits.inj h2
        subst hws
        exact ⟨w, hw, (List.prefix_append w m).isInfix⟩
      · obtain ⟨w2, hw2, hin⟩ := hm3 ws2 h2
        exact ⟨w2, hw2, hin.trans (List.suffix_append w m).isInfix⟩
  | .notDotStar :: ps, t, hpat, ht, h => by
    simp only [matchHere, List.any_eq_true, List.mem_range] at h
    obtain ⟨k, hk, hrest⟩ := h
    obtain ⟨m, hm1, hm2, hm3⟩ := matchHere_run ps (t.drop k)
      (fun ws2 h2 => hpat ws2 (List.mem_cons_of_mem _ h2))
      (fun c hc => ht c ((List.drop_suffix k t).subset hc)) hrest
    refine ⟨t.take k ++ m, ?_, ?_, ?_⟩
    · have := (List.prefix_append_right_inj (t.take k)).mpr hm1
      rwa [List.take_append_drop] at this
    · intro c hc
      rcases List.mem_append.mp hc with hc | hc
      · have htw : t.takeWhile (fun c => c != 46) =
            t.take (t.takeWhile fun c => c != 46).length :=
          List.prefix_iff_eq_take.mp (List.takeWhile_prefix _)
        have hmin : min k (t.takeWhile fun c => c != 46).length = k := by omega
        have htake : t.take k = (t.takeWhile fun c => c != 46).take k := by
          rw [htw, List.take_take, hmin]
        rw [htake] at hc
        have := List.mem_takeWhile_imp (List.mem_of_mem_take hc)
        simpa using this
      · exact hm2 c hc
    · intro ws2 h2
      rcases List.mem_cons.mp h2 with h2 | h2
      · cases h2
      · obtain ⟨w2, hw2, hin⟩ := hm3 ws2 h2
        exact ⟨w2, hw2, hin.trans (List.suffix_append (t.take k) m).isInfix⟩

/-- A match of an expression somewhere in a text without ASCII capitals lies within one
period-free segment, which therefore contains an alternative of every literal piece. -/
theorem regexMatch_segment (re : List Piece) (s : JSStr)
    (hpat : ∀ ws, Piece.lits ws ∈ re → ∀ w ∈ ws, ∀ d ∈ w, d ≠ 46 ∧ ¬ (65 ≤ d ∧ d ≤ 90))
    (hs : ∀ c ∈ s, ¬ (65 ≤ c ∧ c ≤ 90)) (h : regexMatch re s = true) :
    ∃ seg ∈ periodFreeSegments s, ∀ ws, Piece.lits ws ∈ re → ∃ w ∈ ws, includes seg w = true := by
  simp only [regexMatch, List.any_eq_true, List.mem_tails] at h
  obtain ⟨t, ht, hmatch⟩ := h
  obtain ⟨m, hm1, hm2, hm3⟩ := matchHere_run re t hpat (fun c hc => hs c (ht.subset hc)) hmatch
  obtain ⟨seg, hseg, hin⟩ := infix_periodFreeSegment s m (fun h46 => hm2 46 h46 rfl)
    (hm1.isInfix.trans ht.isInfix)
  refine ⟨seg, hseg, fun ws hws => ?_⟩
  obtain ⟨w, hw, hwm⟩ := hm3 ws hws
  exact ⟨w, hw, (includes_iff seg w).mpr (hwm.trans hin)⟩

theorem asciiLower_no_capital (s : JSStr) : ∀ c ∈ asciiLower s, ¬ (65 ≤ c ∧ c ≤ 90) := by
  intro c hc
  obtain ⟨a, _, rfl⟩ := List.mem_map.mp hc
  unfold asciiLowerUnit
  split <;> omega

theorem graceRegex1_literals : ∀ ws, Piece.lits ws ∈ graceRegex1 →
    ∀ w ∈ ws, ∀ d ∈ w, d ≠ 46 ∧ ¬ (65 ≤ d ∧ d ≤ 90) := by
  intro ws hws
  simp only [graceRegex1, List.mem_cons, Piece.lits.injEq, List.mem_singleton,
    List.not_mem_nil, or_false, reduceCtorEq, false_or] at hws
  rcases hws with rfl | rfl | rfl <;> decide

theorem graceRegex2_literals : ∀ ws, Piece.lits ws ∈ graceRegex2 →
    ∀ w ∈ ws, ∀ d ∈ w, d ≠ 46 ∧ ¬ (65 ≤ d ∧ d ≤ 90) := by
  intro ws hws
  simp only [graceRegex2, List.mem_cons, Piece.lits.injEq, List.mem_singleton,
    List.not_mem_nil, or_false, reduceCtorEq, false_or] at hws
  rcases hws with rfl | rfl | rfl <;> decide

/-- When a grace-period expression matches a text without ASCII capitals, one period-free
segment of the text contains "grace period", "day" and one of "thirty" and "30". -/
theorem grace_match_segment (s : JSStr) (hs : ∀ c ∈ s, ¬ (65 ≤ c ∧ c ≤ 90))
    (h : regexMatch graceRegex1 s = true ∨ regexMatch graceRegex2 s = true) :
    ∃ seg ∈ periodFreeSegments s, includes seg (js "grace period") = true ∧
      includes seg (js "day") = true ∧
      (includes seg (js "thirty") = true ∨ includes seg (js "30") = true) := by
  have hkey : ∃ seg ∈ periodFreeSegments s,
      (∃ w ∈ [js "grace period"], includes seg w = true) ∧
      (∃ w ∈ [js "day"], includes seg w = true) ∧
      (∃ w ∈ [js "thirty", js "30"], includes seg w = true) := by
    rcases h with h | h
    · obtain ⟨seg, hseg, hall⟩ := regexMatch_segment graceRegex1 s graceRegex1_literals hs h
      exact ⟨seg, hseg, hall _ (by simp [graceRegex1]), hall _ (by simp [graceRegex1]),
        hall _ (by simp [graceRegex1])⟩
    · obtain ⟨seg, hseg, hall⟩ := regexMatch_segment graceRegex2 s graceRegex2_literals hs h
      exact ⟨seg, hseg, hall _ (by simp [graceRegex2]), hall _ (by simp [graceRegex2]),
        hall _ (by simp [graceRegex2])⟩
  obtain ⟨seg, hseg, ⟨w1, hw1, h1⟩, ⟨w2, hw2, h2⟩, ⟨w3, hw3, h3⟩⟩ := hkey
  rw [List.mem_singleton] at hw1 hw2
  subst hw1
  subst hw2
  refine ⟨seg, hseg, h1, h2, ?_⟩
  rcases List.mem_cons.mp hw3 with hw3 | hw3
  · subst hw3; exact Or.inl h3
  · rw [List.mem_singleton] at hw3
    subst hw3; exact Or.inr h3

/-- C17: provided lowercasing leaves no ASCII capital in its result (as `toLowerCase` does),
if no period-free segment of the lowercased document contains "grace period", "day" and
one of "thirty" and "30" together, then neither grace-period expression matches and
`generateAnswer` returns the canned grace-period sentence for no question. -/
theorem grace_evidence_within_one_segment (lc : JSStr → JSStr)
    (hlc : ∀ s : JSStr, ∀ c ∈ lc s, ¬ (65 ≤ c ∧ c ≤ 90)) (doc : JSStr)
    (hseg : ∀ seg ∈ periodFreeSegments (lc doc),
      ¬ (includes seg (js "grace period") = true ∧ includes seg (js "day") = true ∧
        (includes seg (js "thirty") = true ∨ includes seg (js "30") = true))) :
    regexMatch graceRegex1 (lc doc) = false ∧ regexMatch graceRegex2 (lc doc) = false ∧
    ∀ question : JSValue, generateAnswer lc doc question ≠ .ok (js "A grace period of thirty days is provided for premium payment after the due date to renew or continue the policy without losing continuity benefits.") := by
  have hno : ¬ (regexMatch graceRegex1 (lc doc) = true ∨ regexMatch graceRegex2 (lc doc) = true) := by
    intro h
    obtain ⟨seg, hmem, hall⟩ := grace_match_segment (lc doc) (hlc doc) h
    exact hseg seg hmem hall
  have h1 : regexMatch graceRegex1 (lc doc) = false :=
    Bool.eq_false_iff.mpr fun h => hno (Or.inl h)
  have h2 : regexMatch graceRegex2 (lc doc) = false :=
    Bool.eq_false_iff.mpr fun h => hno (Or.inr h)
  refine ⟨h1, h2, fun question => ?_⟩
  show generateAnswer lc doc question ≠ .ok graceAnswer
  cases question with
  | string q =>
    rw [generateAnswer_string]
    intro heq
    have heq2 := Except.ok.inj heq
    cases hfind : rules.find? (Rule.fires lc doc q) with
    | none =>
      rw [hfind] at heq2
      exact fallbackAnswer_ne_rule lc doc q
        (Rule.mk (fun q => includes q (js "grace period") && includes q (js "premium"))
          (fun t => regexMatch graceRegex1 t || regexMatch graceRegex2 t) graceAnswer)
        (by simp [rules]) heq2
    | some r2 =>
      rw [hfind] at heq2
      have hfire : r2.fires lc doc q = true := List.find?_some hfind
      have hr2 : r2 = Rule.mk
          (fun q => includes q (js "grace period") && includes q (js "premium"))
          (fun t => regexMatch graceRegex1 t || regexMatch graceRegex2 t) graceAnswer :=
        rules_answer_inj r2 _ (List.mem_of_find?_eq_some hfind) (by simp [rules]) heq2
      rw [hr2] at hfire
      simp [Rule.fires, h1, h2] at hfire
  | null => exact fun h => by cases h
  | bool b => exact fun h => by cases h
  | number n => exact fun h => by cases h
  | array xs => exact fun h => by cases h
  | object fields => exact fun h => by cases h

/-- Witness of C17: the document states the grace period in one sentence and the 30 days in
the next one; no segment holds all three phrases, the evidence fails and the question about
the grace period is answered from the ranked sentences. -/
theorem grace_evidence_within_one_segment_witness :
    periodFreeSegments (asciiLower
        (js "The policy has a Grace Period. It lasts for 30 days after the due date.")) =
      [js "the policy has a grace period", js " it lasts for 30 days after the due date", []] ∧
    regexMatch graceRegex1 (asciiLower
        (js "The policy has a Grace Period. It lasts for 30 days after the due date.")) = false ∧
    regexMatch graceRegex2 (asciiLower
        (js "The policy has a Grace Period. It lasts for 30 days after the due date.")) = false ∧
    generateAnswer asciiLower
        (js "The policy has a Grace Period. It lasts for 30 days after the due date.")
        (.string (js "What is the grace period for premium payment?")) ≠
      .ok (js "A grace period of thirty days is provided for premium payment after the due date to renew or continue the policy without losing continuity benefits.") :=
  have h := grace_evidence_within_one_segment asciiLower asciiLower_no_capital
    (js "The policy has a Grace Period. It lasts for 30 days after the due date.") (by decide)
  ⟨by decide, h.1, h.2.1, h.2.2 _⟩

end HackRx
